import Mathlib

set_option maxRecDepth 8192

/-!
Shallow embedding of the `systime` embedded timekeeping library.

The library ships two parallel packagings of the same algorithm:
* `systime.c` / `systime.h` — the fused variant (`systicks`, `systime3`,
  `systimelast3`, `systime`, `systime_adj`, `systime_set`, `systime_init`),
  modelled below in namespace `Combined`;
* `systime_tick.c` / `systime_ms.c` / `systime_sec.c` / `systime_tick.h` —
  the split variant (`systime_tick`, `systime_ms`, `systime_sec`,
  `systime_sec_set`, `systime_tick_init`, `systime_time_init` and the
  elapsed/expired helper macros), modelled in namespace `Split`.

Modelling conventions:
* C `unsigned` / `uint32_t` is modelled as `ℕ` reduced modulo `2 ^ 32`
  (the code targets 32-bit embedded platforms: `8 * sizeof(unsigned) = 32`,
  so the pass-through test `hw_bits == 8 * sizeof(unsigned)` becomes
  `hw_bits = 32`).  `add32` / `sub32` / `mul32` are C unsigned `+`, `-`, `*`.
* The hardware sample function pointer (`systickshw` resp. the function
  behind `systime_tick_current`) is modelled by passing the raw value the
  hardware would return (`hw`) as an explicit argument; one call of a
  systime function performs at most one hardware sample, so one `hw`
  argument per call suffices.  State held in C `static` variables becomes
  an explicit state record threaded through every function.
* The catch-up `while` loops of the compiled (no-divide-instruction) build
  are modelled with explicit fuel, returning `none` when the fuel is
  exhausted before the loop condition turns false.  This makes
  non-termination (which is real: a chunk constant can overflow to 0
  mod 2^32) observable as `∀ fuel, … = none`.
* The `#if defined(..HAVE_DIV_INST)` variants, which are part of the same
  source files, are modelled as separate `_div` functions (they are total).
-/

/-- 2^32, the modulus of C `unsigned` arithmetic on the 32-bit targets this
library is written for. -/
def U32 : ℕ := 4294967296

/-- C unsigned 32-bit addition. -/
def add32 (a b : ℕ) : ℕ := (a + b) % U32

/-- C unsigned 32-bit subtraction `a - b` (wraparound-safe). -/
def sub32 (a b : ℕ) : ℕ := (a % U32 + (U32 - b % U32)) % U32

/-- C unsigned 32-bit multiplication. -/
def mul32 (a b : ℕ) : ℕ := (a * b) % U32

/-- The catch-up loop shape shared by all the no-divide-instruction builds:
`while ((now - last) > chunk) { last += chunk; acc += inc; }`, returning the
final `(last, acc)`.  `fuel` bounds the number of iterations; `none` means
the loop did not finish within `fuel` iterations.  Note the comparison is
strict `>`, exactly as in the C source. -/
def catchup : ℕ → ℕ → ℕ → ℕ → ℕ → ℕ → Option (ℕ × ℕ)
  | 0, chunk, _, now, last, acc =>
      if chunk < sub32 now last then none else some (last, acc)
  | fuel+1, chunk, inc, now, last, acc =>
      if chunk < sub32 now last then
        catchup fuel chunk inc now (add32 last chunk) (add32 acc inc)
      else some (last, acc)

namespace Split

/-- State of the split variant: the `static`/global variables of
`systime_tick.c` (`last_timer_ticks`, `systime_curr_ticks`, `mask`,
`tickmult`, and which function `systime_tick_current` points at),
`systime_ms.c` (`lastsystime_ticks`, `ticks1ms`, `ticks50ms`,
`systime_curr_ms`) and `systime_sec.c` (`systime_curr_sec`, `last_ms`). -/
@[ext]
structure State where
  last_timer_ticks : ℕ
  curr_ticks : ℕ
  mask : ℕ
  tickmult : ℕ
  /-- `systime_tick_current == fcn` (direct pass-through to the hardware
  sampler) as opposed to `systime_tick_current == &systime_tick_internal`. -/
  passThrough : Bool
  lastsystime_ticks : ℕ
  ticks1ms : ℕ
  ticks50ms : ℕ
  curr_ms : ℕ
  curr_sec : ℕ
  last_ms : ℕ
  deriving DecidableEq, Repr

/-- All numeric fields of a reachable state are reduced mod 2^32. -/
def State.wf (s : State) : Prop :=
  s.last_timer_ticks < U32 ∧ s.curr_ticks < U32 ∧ s.mask < U32 ∧
  s.tickmult < U32 ∧ s.lastsystime_ticks < U32 ∧ s.ticks1ms < U32 ∧
  s.ticks50ms < U32 ∧ s.curr_ms < U32 ∧ s.curr_sec < U32 ∧ s.last_ms < U32

instance (s : State) : Decidable s.wf := by
  unfold State.wf; infer_instance

/-- `systime_tick_internal` of `systime_tick.c`: widen the raw hardware
sample `hw` by modular subtraction against `last_timer_ticks`, masked to the
hardware register width, scaled by `tickmult`. -/
def systime_tick_internal (hw : ℕ) (s : State) : State × ℕ :=
  let now := hw % U32
  let diff := Nat.land (sub32 now s.last_timer_ticks) s.mask
  let t := add32 s.curr_ticks (mul32 diff s.tickmult)
  ({ s with curr_ticks := t, last_timer_ticks := now }, t)

/-- `systime_tick` of `systime_tick.c`: dispatch through
`systime_tick_current`, which is either the raw hardware sampler (`hw`
directly) or `systime_tick_internal`. -/
def systime_tick (hw : ℕ) (s : State) : State × ℕ :=
  if s.passThrough then (s, hw % U32) else systime_tick_internal hw s

/-- `systime_ms` of `systime_ms.c`, default (no divide instruction) build:
two catch-up loops peeling 50 ms chunks and then 1 ms chunks. -/
def systime_ms (fuel hw : ℕ) (s : State) : Option (State × ℕ) :=
  let tr := systime_tick hw s
  (catchup fuel tr.1.ticks50ms 50 tr.2 tr.1.lastsystime_ticks tr.1.curr_ms).bind
    fun p1 =>
  (catchup fuel tr.1.ticks1ms 1 tr.2 p1.1 p1.2).bind
    fun p2 =>
  some ({ tr.1 with lastsystime_ticks := p2.1, curr_ms := p2.2 }, p2.2)

/-- `systime_ms` of `systime_ms.c`, `SYSTEM_TIME_HAVE_DIV_INST` build:
single integer division.  (C divides by `ticks1ms`; `ticks1ms = 0` is
undefined behaviour in C, here Lean division returns 0.) -/
def systime_ms_div (hw : ℕ) (s : State) : State × ℕ :=
  let tr := systime_tick hw s
  let diff := sub32 tr.2 tr.1.lastsystime_ticks / tr.1.ticks1ms
  let cm := add32 tr.1.curr_ms diff
  let l := add32 tr.1.lastsystime_ticks (mul32 diff tr.1.ticks1ms)
  ({ tr.1 with curr_ms := cm, lastsystime_ticks := l }, cm)

/-- `systime_sec` of `systime_sec.c`, default build:
`while ((systime_ms() - last_ms) >= 1000) { last_ms += 1000; systime_curr_sec++; }`.
Note `systime_ms()` is re-evaluated on every test of the condition, exactly
as in the C source, and the comparison here is `>=` (not strict). -/
def systime_sec : ℕ → ℕ → State → Option (State × ℕ)
  | 0, hw, s =>
      (systime_ms 0 hw s).bind fun r =>
        if 1000 ≤ sub32 r.2 r.1.last_ms then none
        else some (r.1, r.1.curr_sec)
  | fuel+1, hw, s =>
      (systime_ms (fuel+1) hw s).bind fun r =>
        if 1000 ≤ sub32 r.2 r.1.last_ms then
          systime_sec fuel hw
            { r.1 with last_ms := add32 r.1.last_ms 1000,
                       curr_sec := add32 r.1.curr_sec 1 }
        else some (r.1, r.1.curr_sec)

/-- `systime_sec` of `systime_sec.c`, `SYSTEM_TIME_HAVE_DIV_INST` build. -/
def systime_sec_div (hw : ℕ) (s : State) : State × ℕ :=
  let r := systime_ms_div hw s
  let diff := sub32 r.2 r.1.last_ms / 1000
  ({ r.1 with curr_sec := add32 r.1.curr_sec diff,
              last_ms := add32 r.1.last_ms (mul32 diff 1000) },
   add32 r.1.curr_sec diff)

/-- `systime_sec_set` of `systime_sec.c`: read the current seconds (which
performs a full catch-up), then move `systime_curr_sec` up or down to the
target. -/
def systime_sec_set (fuel hw target : ℕ) (s : State) : Option State :=
  (systime_sec fuel hw s).bind fun r =>
    if target % U32 < r.2 then
      some { r.1 with curr_sec := sub32 r.1.curr_sec (r.2 - target % U32) }
    else
      some { r.1 with curr_sec := add32 r.1.curr_sec (target % U32 - r.2) }

/-- `systime_tick_init` of `systime_tick.c`.  On a 32-bit target the C
condition `hw_bits == 8 * sizeof(unsigned) && tick_multiplier == 1` is
`hw_bits = 32 ∧ tick_multiplier = 1`.  `mask = (1UL << hw_bits) - 1`
truncated to `unsigned`.  Ends with one priming `systime_tick()` call. -/
def systime_tick_init (hw_bits tick_multiplier hw : ℕ) (s : State) : State :=
  let s1 := if hw_bits = 32 ∧ tick_multiplier = 1 then { s with passThrough := true }
            else { s with passThrough := false,
                          tickmult := tick_multiplier % U32,
                          mask := (2 ^ hw_bits - 1) % U32 }
  (systime_tick hw s1).1

/-- `systime_time_init` of `systime_ms.c`: store `ticks1ms` and the
precomputed `ticks50ms = 50 * ticks_for_1ms` (C multiplication, i.e. mod
2^32), then run one priming `systime_ms()` call. -/
def systime_time_init (fuel hw ticks_for_1ms : ℕ) (s : State) : Option State :=
  let s1 := { s with ticks1ms := ticks_for_1ms % U32,
                     ticks50ms := (50 * ticks_for_1ms) % U32 }
  (systime_ms fuel hw s1).bind fun r => some r.1

/-- Macro `systime_tick_elapsed(start)` = `systime_tick() - start`. -/
def systime_tick_elapsed (hw start : ℕ) (s : State) : State × ℕ :=
  let r := systime_tick hw s
  (r.1, sub32 r.2 start)

/-- Macro `systime_tick_expired(start, interval)` =
`(systime_tick() - start) >= interval`. -/
def systime_tick_expired (hw start interval : ℕ) (s : State) : State × Bool :=
  let r := systime_tick hw s
  (r.1, decide (interval % U32 ≤ sub32 r.2 start))

/-- Macro `systime_ms_elapsed(start)` = `systime_ms() - start`. -/
def systime_ms_elapsed (fuel hw start : ℕ) (s : State) : Option (State × ℕ) :=
  (systime_ms fuel hw s).bind fun r => some (r.1, sub32 r.2 start)

/-- Macro `systime_ms_expired(start, interval)`. -/
def systime_ms_expired (fuel hw start interval : ℕ) (s : State) :
    Option (State × Bool) :=
  (systime_ms fuel hw s).bind fun r =>
    some (r.1, decide (interval % U32 ≤ sub32 r.2 start))

/-- Macro `systime_sec_elapsed(start)` = `systime_sec() - start`. -/
def systime_sec_elapsed (fuel hw start : ℕ) (s : State) : Option (State × ℕ) :=
  (systime_sec fuel hw s).bind fun r => some (r.1, sub32 r.2 start)

/-- Macro `systime_sec_expired(start, interval)`. -/
def systime_sec_expired (fuel hw start interval : ℕ) (s : State) :
    Option (State × Bool) :=
  (systime_sec fuel hw s).bind fun r =>
    some (r.1, decide (interval % U32 ≤ sub32 r.2 start))

/-- Run `systime_tick` over a list of raw hardware samples, one sample per
query, collecting the widened tick value returned by each query. -/
def tickRun (s : State) : List ℕ → List ℕ
  | [] => []
  | hw :: rest =>
      let r := systime_tick hw s
      r.2 :: tickRun r.1 rest

end Split

namespace Combined

/-- State of the fused variant: the `static` variables of `systime.c`. -/
@[ext]
structure State where
  ticks : ℕ
  tickmult : ℕ
  mask : ℕ
  ticks1ms : ℕ
  ticks10ms : ℕ
  ticks100ms : ℕ
  milisec : ℕ
  sec : ℕ
  sec_offset : ℕ
  use_hw_systicks : Bool
  last_timer_ticks : ℕ
  last_systime_ticks : ℕ
  last_ms : ℕ
  deriving DecidableEq, Repr

/-- All numeric fields of a reachable state are reduced mod 2^32. -/
def State.wf (s : State) : Prop :=
  s.ticks < U32 ∧ s.tickmult < U32 ∧ s.mask < U32 ∧ s.ticks1ms < U32 ∧
  s.ticks10ms < U32 ∧ s.ticks100ms < U32 ∧ s.milisec < U32 ∧ s.sec < U32 ∧
  s.sec_offset < U32 ∧ s.last_timer_ticks < U32 ∧
  s.last_systime_ticks < U32 ∧ s.last_ms < U32

instance (s : State) : Decidable s.wf := by
  unfold State.wf; infer_instance

/-- The `systime3_t` struct of `systime.h`. -/
structure systime3_t where
  sec : ℕ
  msec : ℕ
  ticks : ℕ
  deriving DecidableEq, Repr

/-- `systicks` of `systime.c`: either pass the raw hardware sample through
(when the timer register is as wide as `unsigned` and the multiplier is 1)
or widen it modularly. -/
def systicks (hw : ℕ) (s : State) : State × ℕ :=
  if s.use_hw_systicks then (s, hw % U32)
  else
    let now := hw % U32
    let diff := Nat.land (sub32 now s.last_timer_ticks) s.mask
    let t := add32 s.ticks (mul32 diff s.tickmult)
    ({ s with ticks := t, last_timer_ticks := now }, t)

/-- `systime3` of `systime.c`, default (no divide instruction) build: three
catch-up loops on ticks (100 ms, 10 ms, 1 ms chunks, all with strict `>`),
then one catch-up loop folding milliseconds into seconds (chunk 1000, also
strict `>`).  The output triple carries `sec + sec_offset`, the updated
`milisec`, and the freshly sampled tick count; the returned value is
`milisec`.  The caller-supplied pointer is handled by `systime3_ptr`. -/
def systime3 (fuel hw : ℕ) (s : State) : Option (State × systime3_t × ℕ) :=
  let tr := systicks hw s
  (catchup fuel tr.1.ticks100ms 100 tr.2 tr.1.last_systime_ticks tr.1.milisec).bind
    fun p1 =>
  (catchup fuel tr.1.ticks10ms 10 tr.2 p1.1 p1.2).bind
    fun p2 =>
  (catchup fuel tr.1.ticks1ms 1 tr.2 p2.1 p2.2).bind
    fun p3 =>
  (catchup fuel 1000 1 p3.2 tr.1.last_ms tr.1.sec).bind
    fun p4 =>
  some ({ tr.1 with last_systime_ticks := p3.1, milisec := p3.2,
                    last_ms := p4.1, sec := p4.2 },
        ⟨add32 p4.2 tr.1.sec_offset, p3.2, tr.2⟩, p3.2)

/-- `systime3` with its pointer argument: `nullp = true` models passing
`NULL`, in which case the `if (t) { … }` write is skipped (`none` in the
triple position) but the accumulators advance and `milisec` is returned all
the same. -/
def systime3_ptr (fuel : ℕ) (nullp : Bool) (hw : ℕ) (s : State) :
    Option (State × Option systime3_t × ℕ) :=
  (systime3 fuel hw s).bind fun r =>
    some (r.1, if nullp then none else some r.2.1, r.2.2)

/-- The triple `systimelast3` fills: last-accounted seconds (plus offset),
milliseconds, and `last_systime_ticks` in the ticks slot. -/
def last_triple (s : State) : systime3_t :=
  ⟨add32 s.sec s.sec_offset, s.milisec, s.last_systime_ticks⟩

/-- `systimelast3` of `systime.c`: fill the struct (when the pointer is not
NULL) from the most recent accounting pass, sampling no hardware and
mutating nothing; return `milisec`. -/
def systimelast3 (nullp : Bool) (s : State) : State × Option systime3_t × ℕ :=
  (s, if nullp then none else some (last_triple s), s.milisec)

/-- `systime` of `systime.c`: fused query, returns current seconds. -/
def systime (fuel hw : ℕ) (s : State) : Option (State × ℕ) :=
  (systime3 fuel hw s).bind fun r => some (r.1, r.2.1.sec)

/-- `systimelast` of `systime.c`: returns last seconds, mutating nothing. -/
def systimelast (s : State) : State × ℕ :=
  (s, (last_triple s).sec)

/-- `systime_adj` of `systime.c`: `sec_offset += adj`. -/
def systime_adj (adj : ℕ) (s : State) : State :=
  { s with sec_offset := add32 s.sec_offset adj }

/-- `systime_set` of `systime.h` (static inline):
`systime_adj(now - systime())`. -/
def systime_set (fuel hw target : ℕ) (s : State) : Option State :=
  (systime fuel hw s).bind fun r => some (systime_adj (sub32 target r.2) r.1)

/-- Inline wrapper `systime_ms` of `systime.h`: `systime3(0)` — passes a
NULL pointer and returns the milliseconds value. -/
def systime_ms (fuel hw : ℕ) (s : State) : Option (State × ℕ) :=
  (systime3_ptr fuel true hw s).bind fun r => some (r.1, r.2.2)

/-- Inline wrapper `systimelast_ms` of `systime.h`: `systimelast3(0)`. -/
def systimelast_ms (s : State) : State × ℕ :=
  let r := systimelast3 true s
  (r.1, r.2.2)

/-- `systime_init` of `systime.c`: configure pass-through or masked
widening, store the multiplier and the 1/10/100 ms tick constants
(products taken in C unsigned arithmetic), then run one priming
`systicks()` call.  No argument is validated. -/
def systime_init (hw_bits tick_multiplier ticks_for_1ms hw : ℕ) (s : State) :
    State :=
  let s1 := if hw_bits = 32 ∧ tick_multiplier = 1 then
              { s with use_hw_systicks := true }
            else
              { s with use_hw_systicks := false,
                       mask := (2 ^ hw_bits - 1) % U32 }
  let s2 := { s1 with tickmult := tick_multiplier % U32,
                      ticks1ms := ticks_for_1ms % U32,
                      ticks10ms := (10 * ticks_for_1ms) % U32,
                      ticks100ms := (100 * ticks_for_1ms) % U32 }
  (systicks hw s2).1

end Combined

/-!  Concrete states used by the concrete-scenario theorems below. -/

/-- Split-variant state as configured by
`systime_tick_init(fcn, 16, 1)` + `systime_time_init(1000)` with the
hardware reading 0 at init time: a 16-bit widener with multiplier 1,
`ticks1ms = 1000`, all counters at 0. -/
def tick16St : Split.State :=
  { last_timer_ticks := 0, curr_ticks := 0, mask := 65535, tickmult := 1,
    passThrough := false, lastsystime_ticks := 0, ticks1ms := 1000,
    ticks50ms := 50000, curr_ms := 0, curr_sec := 0, last_ms := 0 }

/-- Split-variant state in pass-through mode (32-bit timer, multiplier 1)
with `ticks1ms = 1000`, all counters at 0. -/
def exSt : Split.State :=
  { last_timer_ticks := 0, curr_ticks := 0, mask := 0, tickmult := 0,
    passThrough := true, lastsystime_ticks := 0, ticks1ms := 1000,
    ticks50ms := 50000, curr_ms := 0, curr_sec := 0, last_ms := 0 }

/-- `exSt` reconfigured with `ticks_for_1ms = 2^31` (a legal nonzero
`unsigned` value): the precomputed chunk `50 * 2^31` overflows to 0
mod 2^32, exactly as `systime_time_init` would store it. -/
def exSt7 : Split.State :=
  { exSt with ticks1ms := 2147483648, ticks50ms := 0 }

/-- `exSt` reconfigured with `ticks_for_1ms = 2^27`: the precomputed chunk
`50 * 2^27 mod 2^32 = 2415919104` (= 18 * 2^27) is positive but no longer
50 milliseconds worth of ticks, exactly as `systime_time_init` would store
it. -/
def exSt27 : Split.State :=
  { exSt with ticks1ms := 134217728, ticks50ms := 2415919104 }

/-- The initial values of the C static variables of the split variant
(`ticks1ms` is statically initialised to 10000 in `systime_ms.c`; function
pointer starts at `systime_tick_internal`, i.e. not pass-through). -/
def initSplit : Split.State :=
  { last_timer_ticks := 0, curr_ticks := 0, mask := 0, tickmult := 0,
    passThrough := false, lastsystime_ticks := 0, ticks1ms := 10000,
    ticks50ms := 0, curr_ms := 0, curr_sec := 0, last_ms := 0 }

/-- The initial (all-zero) values of the C static variables of the fused
variant. -/
def initCombined : Combined.State :=
  { ticks := 0, tickmult := 0, mask := 0, ticks1ms := 0, ticks10ms := 0,
    ticks100ms := 0, milisec := 0, sec := 0, sec_offset := 0,
    use_hw_systicks := false, last_timer_ticks := 0, last_systime_ticks := 0,
    last_ms := 0 }

/-- Fused-variant state as configured by `systime_init(fcn, 32, 1, 1000)`
would be for pass-through, except in widening mode (e.g. 16-bit register):
`ticks1ms = 1000`, all counters 0. -/
def exCombined : Combined.State :=
  { ticks := 0, tickmult := 1, mask := 65535, ticks1ms := 1000,
    ticks10ms := 10000, ticks100ms := 100000, milisec := 0, sec := 0,
    sec_offset := 0, use_hw_systicks := false, last_timer_ticks := 0,
    last_systime_ticks := 0, last_ms := 0 }

/-!  Basic facts about the 32-bit modular operations. -/

theorem U32_pos : 0 < U32 := by decide

theorem sub32_lt (a b : ℕ) : sub32 a b < U32 :=
  Nat.mod_lt _ U32_pos

theorem add32_lt (a b : ℕ) : add32 a b < U32 :=
  Nat.mod_lt _ U32_pos

theorem mul32_lt (a b : ℕ) : mul32 a b < U32 :=
  Nat.mod_lt _ U32_pos

theorem sub32_self (a : ℕ) : sub32 a a = 0 := by
  simp only [sub32, U32]; omega

theorem add32_zero {a : ℕ} (h : a < U32) : add32 a 0 = a := by
  simp only [add32, U32] at *; omega

theorem add32_add32 (a b c : ℕ) : add32 (add32 a b) c = add32 a (b + c) := by
  simp only [add32, U32]; omega

theorem add32_mod_right (a b : ℕ) : add32 a (b % U32) = add32 a b := by
  simp only [add32, U32]; omega

theorem sub32_mod_left (a b : ℕ) : sub32 (a % U32) b = sub32 a b := by
  simp only [sub32, U32]; omega

/-- Advancing `last` by `k ≤ (now - last)` shrinks the modular residual by
exactly `k`. -/
theorem sub32_add32 {a b k : ℕ} (hk : k ≤ sub32 a b) :
    sub32 a (add32 b k) = sub32 a b - k := by
  simp only [sub32, add32, U32] at *; omega

/-- Unsigned subtraction recovers the true elapsed count across wraparound:
if the counter advanced from `s` by `e < 2^32`, the 32-bit difference is
exactly `e`. -/
theorem sub32_wrap {s e : ℕ} (he : e < U32) :
    sub32 ((s + e) % U32) s = e := by
  simp only [sub32, U32] at *; omega

theorem add32_sub32_cancel {a b : ℕ} (ha : a < U32) (hb : b < U32) :
    add32 b (sub32 a b) = a := by
  simp only [sub32, add32, U32] at *; omega

/-- The offset-mode identity: after `sec_offset += target - (sec + offset)`
the reported seconds `sec + sec_offset` equal the target (mod 2^32). -/
theorem offset_mode_eq (x y T : ℕ) :
    add32 x (add32 y (sub32 T (add32 x y))) = T % U32 := by
  simp only [sub32, add32, U32]; omega

/-- Direct-mode identity: `sec += (T - sec)` lands exactly on `T`. -/
theorem direct_mode_eq {a T : ℕ} (ha : a < U32) (hT : T < U32) :
    add32 a (sub32 T a) = T := by
  simp only [sub32, add32, U32] at *; omega

/-- `x & (2^W - 1)` is `x mod 2^W`: the mask computed by the init functions
implements the modular reduction of the claim. -/
theorem land_two_pow_sub_one (n W : ℕ) :
    Nat.land n (2 ^ W - 1) = n % 2 ^ W := by
  show n &&& (2 ^ W - 1) = n % 2 ^ W
  apply Nat.eq_of_testBit_eq
  intro i
  rw [Nat.testBit_land, Nat.testBit_mod_two_pow, Nat.testBit_two_pow_sub_one]
  cases h : Nat.testBit n i <;> by_cases hi : i < W <;> simp_all

theorem land_zero_left (n : ℕ) : Nat.land 0 n = 0 := by
  show 0 &&& n = 0
  simp

theorem mul32_zero_left (b : ℕ) : mul32 0 b = 0 := by
  simp [mul32]

/-!  The catch-up loop: postcondition, closed form, totality,
and divergence at chunk 0. -/

/-- If the loop condition is false at entry the loop returns immediately,
whatever the fuel. -/
theorem catchup_of_le {c inc now last acc : ℕ} (h : sub32 now last ≤ c) :
    ∀ fuel, catchup fuel c inc now last acc = some (last, acc) := by
  intro fuel
  cases fuel <;> simp [catchup, Nat.not_lt.2 h]

/-- Whenever the loop returns, the final residual is at most the chunk
(the source compares with strict `>`, so `chunk` itself is a possible
final residual). -/
theorem catchup_res {c inc now : ℕ} :
    ∀ fuel {last acc l m}, catchup fuel c inc now last acc = some (l, m) →
      sub32 now l ≤ c := by
  intro fuel
  induction fuel with
  | zero =>
    intro last acc l m h
    simp only [catchup] at h
    split at h
    · exact absurd h (by simp)
    · obtain ⟨rfl, rfl⟩ := Prod.mk.injEq .. ▸ Option.some.injEq .. ▸ h
      omega
  | succ f ih =>
    intro last acc l m h
    simp only [catchup] at h
    split at h
    · exact ih h
    · obtain ⟨rfl, rfl⟩ := Prod.mk.injEq .. ▸ Option.some.injEq .. ▸ h
      omega

/-- The loop only ever advances `last` towards `now`: the residual never
increases. -/
theorem catchup_res_mono {c inc now : ℕ} :
    ∀ fuel {last acc l m}, catchup fuel c inc now last acc = some (l, m) →
      sub32 now l ≤ sub32 now last := by
  intro fuel
  induction fuel with
  | zero =>
    intro last acc l m h
    simp only [catchup] at h
    split at h
    · exact absurd h (by simp)
    · obtain ⟨rfl, rfl⟩ := Prod.mk.injEq .. ▸ Option.some.injEq .. ▸ h
      exact le_refl _
  | succ f ih =>
    intro last acc l m h
    simp only [catchup] at h
    split at h
    · rename_i hcond
      have hstep : sub32 now (add32 last c) = sub32 now last - c :=
        sub32_add32 (le_of_lt hcond)
      have := ih h
      omega
    · obtain ⟨rfl, rfl⟩ := Prod.mk.injEq .. ▸ Option.some.injEq .. ▸ h
      exact le_refl _

/-- The loop keeps its outputs reduced mod 2^32. -/
theorem catchup_bound {c inc now : ℕ} :
    ∀ fuel {last acc l m}, last < U32 → acc < U32 →
      catchup fuel c inc now last acc = some (l, m) → l < U32 ∧ m < U32 := by
  intro fuel
  induction fuel with
  | zero =>
    intro last acc l m hl ha h
    simp only [catchup] at h
    split at h
    · exact absurd h (by simp)
    · obtain ⟨rfl, rfl⟩ := Prod.mk.injEq .. ▸ Option.some.injEq .. ▸ h
      exact ⟨hl, ha⟩
  | succ f ih =>
    intro last acc l m hl ha h
    simp only [catchup] at h
    split at h
    · exact ih (add32_lt ..) (add32_lt ..) h
    · obtain ⟨rfl, rfl⟩ := Prod.mk.injEq .. ▸ Option.some.injEq .. ▸ h
      exact ⟨hl, ha⟩

/-- Closed form of the loop: with a positive chunk `c` it performs exactly
`((now - last) - 1) / c` iterations (one fewer than the exact quotient when
`c` divides the residual exactly, because the comparison is strict). -/
theorem catchup_eq {c inc now : ℕ} (hc : 0 < c) :
    ∀ fuel {last acc l m}, last < U32 → acc < U32 →
      catchup fuel c inc now last acc = some (l, m) →
      l = add32 last ((sub32 now last - 1) / c * c) ∧
      m = add32 acc ((sub32 now last - 1) / c * inc) := by
  intro fuel
  induction fuel with
  | zero =>
    intro last acc l m hl ha h
    simp only [catchup] at h
    split at h
    · exact absurd h (by simp)
    · obtain ⟨rfl, rfl⟩ := Prod.mk.injEq .. ▸ Option.some.injEq .. ▸ h
      have hd : sub32 now last ≤ c := by omega
      have : (sub32 now last - 1) / c = 0 := Nat.div_eq_of_lt (by omega)
      rw [this]
      simp [add32_zero hl, add32_zero ha]
  | succ f ih =>
    intro last acc l m hl ha h
    simp only [catchup] at h
    split at h
    · rename_i hcond
      obtain ⟨h1, h2⟩ := ih (add32_lt ..) (add32_lt ..) h
      have hk : c ≤ sub32 now last := le_of_lt hcond
      have hres : sub32 now (add32 last c) = sub32 now last - c := sub32_add32 hk
      rw [hres] at h1 h2
      have hq : (sub32 now last - c - 1) / c + 1 = (sub32 now last - 1) / c := by
        have h3 : sub32 now last - 1 = (sub32 now last - c - 1) + c := by omega
        rw [h3, Nat.add_div_right _ hc]
      constructor
      · rw [h1, add32_add32]
        congr 1
        rw [← hq]; ring
      · rw [h2, add32_add32]
        congr 1
        rw [← hq]; ring
    · obtain ⟨rfl, rfl⟩ := Prod.mk.injEq .. ▸ Option.some.injEq .. ▸ h
      have : (sub32 now last - 1) / c = 0 := Nat.div_eq_of_lt (by omega)
      rw [this]
      simp [add32_zero hl, add32_zero ha]

/-- With a positive chunk, fuel at least equal to the entry residual is
enough for the loop to finish (its iteration count is in fact at most
`residual / chunk`). -/
theorem catchup_isSome {c : ℕ} (inc now : ℕ) (hc : 0 < c) :
    ∀ fuel last acc, sub32 now last ≤ fuel →
      (catchup fuel c inc now last acc).isSome := by
  intro fuel
  induction fuel with
  | zero =>
    intro last acc h
    have : ¬ c < sub32 now last := by omega
    simp [catchup, this]
  | succ f ih =>
    intro last acc h
    simp only [catchup]
    split
    · rename_i hcond
      have hres : sub32 now (add32 last c) = sub32 now last - c :=
        sub32_add32 (le_of_lt hcond)
      exact ih _ _ (by omega)
    · simp

/-- A chunk of 0 (which really arises: `50 * ticks_for_1ms` can overflow to
0 mod 2^32) makes the loop diverge whenever the residual is positive: no
amount of fuel finishes it. -/
theorem catchup_zero_chunk {inc now last : ℕ} (hl : last < U32)
    (h : 0 < sub32 now last) :
    ∀ fuel acc, catchup fuel 0 inc now last acc = none := by
  intro fuel
  induction fuel with
  | zero => intro acc; simp [catchup, h]
  | succ f ih =>
    intro acc
    simp only [catchup, if_pos h]
    have h0 : add32 last 0 = last := add32_zero hl
    rw [h0]
    exact ih _

/-!  Division bookkeeping for relating the chunked loops to `/`. -/

/-- Peeling 50-unit chunks first and then 1-unit chunks performs the same
total number of strict-compare iterations as a single 1-unit loop. -/
theorem chunk_split {d t : ℕ} (ht : 0 < t) :
    50 * ((d - 1) / (50 * t)) + (d - (d - 1) / (50 * t) * (50 * t) - 1) / t
      = (d - 1) / t := by
  rcases Nat.eq_zero_or_pos d with rfl | hd
  · simp
  · have hmadd := Nat.mod_add_div (d - 1) (50 * t)
    have hres : d - (d - 1) / (50 * t) * (50 * t) - 1 = (d - 1) % (50 * t) := by
      rw [mul_comm ((d - 1) / (50 * t)) (50 * t)]
      generalize 50 * t * ((d - 1) / (50 * t)) = P at hmadd ⊢
      generalize (d - 1) % (50 * t) = R at hmadd ⊢
      omega
    rw [hres]
    have key : (d - 1) / t
        = (d - 1) % (50 * t) / t + (d - 1) / (50 * t) * 50 := by
      conv_lhs => rw [← Nat.mod_add_div (d - 1) (50 * t)]
      have h3 : 50 * t * ((d - 1) / (50 * t)) = ((d - 1) / (50 * t) * 50) * t := by
        ring
      rw [h3, Nat.add_mul_div_right _ _ ht]
    rw [key]
    ring

/-- The strict-compare loop count `(d - 1) / t` agrees with the exact
quotient `d / t` except when `t` divides a positive `d` exactly. -/
theorem div_pred_of_not_dvd {d t : ℕ} (h : ¬ (t ∣ d ∧ 0 < d)) :
    (d - 1) / t = d / t := by
  rcases Nat.eq_zero_or_pos d with rfl | hd
  · simp
  · have hnd : ¬ t ∣ d := fun hdvd => h ⟨hdvd, hd⟩
    obtain ⟨a, rfl⟩ : ∃ a, d = a + 1 := ⟨d - 1, by omega⟩
    rw [Nat.add_sub_cancel, Nat.succ_div]
    simp [hnd]

/-!  The tick widener (split variant). -/

namespace Split

theorem systime_tick_pass {hw : ℕ} {s : State} (h : s.passThrough = true) :
    systime_tick hw s = (s, hw % U32) := by
  simp [systime_tick, h]

theorem systime_tick_nonpass {hw : ℕ} {s : State} (h : s.passThrough = false) :
    systime_tick hw s =
      ({ s with
          curr_ticks := add32 s.curr_ticks
            (mul32 (Nat.land (sub32 (hw % U32) s.last_timer_ticks) s.mask)
              s.tickmult),
          last_timer_ticks := hw % U32 },
       add32 s.curr_ticks
         (mul32 (Nat.land (sub32 (hw % U32) s.last_timer_ticks) s.mask)
           s.tickmult)) := by
  simp [systime_tick, systime_tick_internal, h]

/-- The tick query touches only `curr_ticks` and `last_timer_ticks`. -/
theorem systime_tick_frame (hw : ℕ) (s : State) :
    (systime_tick hw s).1.mask = s.mask ∧
    (systime_tick hw s).1.tickmult = s.tickmult ∧
    (systime_tick hw s).1.passThrough = s.passThrough ∧
    (systime_tick hw s).1.lastsystime_ticks = s.lastsystime_ticks ∧
    (systime_tick hw s).1.ticks1ms = s.ticks1ms ∧
    (systime_tick hw s).1.ticks50ms = s.ticks50ms ∧
    (systime_tick hw s).1.curr_ms = s.curr_ms ∧
    (systime_tick hw s).1.curr_sec = s.curr_sec ∧
    (systime_tick hw s).1.last_ms = s.last_ms := by
  unfold systime_tick systime_tick_internal
  split <;> simp

theorem systime_tick_wf (hw : ℕ) {s : State} (h : s.wf) :
    (systime_tick hw s).1.wf ∧ (systime_tick hw s).2 < U32 := by
  obtain ⟨h1, h2, h3, h4, h5, h6, h7, h8, h9, h10⟩ := h
  unfold State.wf systime_tick systime_tick_internal
  split
  · exact ⟨⟨h1, h2, h3, h4, h5, h6, h7, h8, h9, h10⟩, Nat.mod_lt _ U32_pos⟩
  · exact ⟨⟨Nat.mod_lt _ U32_pos, add32_lt .., h3, h4, h5, h6, h7, h8, h9, h10⟩,
      add32_lt ..⟩

/-- Re-querying the widener with the same hardware reading changes nothing
and returns the same value. -/
theorem systime_tick_idem {hw : ℕ} {s : State} :
    systime_tick hw (systime_tick hw s).1
      = ((systime_tick hw s).1, (systime_tick hw s).2) := by
  cases hp : s.passThrough
  · rw [systime_tick_nonpass hp]
    rw [systime_tick_nonpass (by simp [hp])]
    simp only [sub32_self, land_zero_left, mul32_zero_left]
    rw [add32_zero (add32_lt ..)]
  · rw [systime_tick_pass hp, systime_tick_pass hp]

/-- The tick query reads neither `systime_curr_sec` nor `last_ms`. -/
theorem systime_tick_indep (hw c d : ℕ) (s : State) :
    systime_tick hw { s with curr_sec := c, last_ms := d }
      = ({ (systime_tick hw s).1 with curr_sec := c, last_ms := d },
         (systime_tick hw s).2) := by
  cases hp : s.passThrough
  · simp [systime_tick, systime_tick_internal, hp]
  · simp [systime_tick, hp]

/-- A second tick query against the same hardware reading, from any state
whose tick-owned fields match the state the first query produced, changes
nothing and returns the first query's value. -/
theorem systime_tick_second {hw : ℕ} {s s1 : State} (hwf1 : s1.wf)
    (hlt : s1.last_timer_ticks = (systime_tick hw s).1.last_timer_ticks)
    (hct : s1.curr_ticks = (systime_tick hw s).1.curr_ticks)
    (hp : s1.passThrough = s.passThrough) :
    systime_tick hw s1 = (s1, (systime_tick hw s).2) := by
  obtain ⟨w1, w2, w3, w4, w5, w6, w7, w8, w9, w10⟩ := hwf1
  cases hps : s.passThrough
  · rw [systime_tick_nonpass hps] at hlt hct
    simp only at hlt hct
    rw [systime_tick_nonpass (hp.trans hps), systime_tick_nonpass hps]
    simp only
    rw [hlt, sub32_self, land_zero_left, mul32_zero_left, add32_zero w2,
      hct]
    exact Prod.mk.injEq .. ▸ ⟨by apply State.ext <;> simp [hlt, hct], rfl⟩
  · rw [systime_tick_pass (hp.trans hps), systime_tick_pass hps]

/-!  The millisecond accumulator (split variant). -/

/-- Closed form of the chunked-loop `systime_ms`: whenever it returns, it
has advanced `curr_ms` by exactly `(d - 1) / ticks1ms` where `d` is the
tick residual at entry, and `lastsystime_ticks` in lock-step, leaving all
other fields as the tick query left them.  Needs the chunk invariant
`ticks50ms = 50 * ticks1ms` (as established by `systime_time_init` when the
product does not overflow). -/
theorem systime_ms_eq {hw : ℕ} {s : State} (hwf : s.wf) (h1 : 1 ≤ s.ticks1ms)
    (h50 : s.ticks50ms = 50 * s.ticks1ms) :
    ∀ fuel {r}, systime_ms fuel hw s = some r →
      r = (let tk := systime_tick hw s
           let n := (sub32 tk.2 tk.1.lastsystime_ticks - 1) / tk.1.ticks1ms
           ({ tk.1 with
                lastsystime_ticks := add32 tk.1.lastsystime_ticks
                  (n * tk.1.ticks1ms),
                curr_ms := add32 tk.1.curr_ms n },
            add32 tk.1.curr_ms n)) := by
  intro fuel r h
  obtain ⟨htwf, _⟩ := systime_tick_wf hw hwf
  obtain ⟨hfm, hft, hfp, hfl, hf1, hf50, hfcm, hfcs, hflm⟩ :=
    systime_tick_frame hw s
  have h1' : 1 ≤ (systime_tick hw s).1.ticks1ms := by rw [hf1]; exact h1
  have h50' : (systime_tick hw s).1.ticks50ms
      = 50 * (systime_tick hw s).1.ticks1ms := by rw [hf50, hf1, h50]
  have hc50 : 0 < (systime_tick hw s).1.ticks50ms := by
    rw [h50']
    exact Nat.mul_pos (by norm_num) h1'
  have hwfl : (systime_tick hw s).1.lastsystime_ticks < U32 := htwf.2.2.2.2.1
  have hwfm : (systime_tick hw s).1.curr_ms < U32 := htwf.2.2.2.2.2.2.2.1
  simp only [systime_ms] at h
  cases hc1 : catchup fuel (systime_tick hw s).1.ticks50ms 50
      (systime_tick hw s).2 (systime_tick hw s).1.lastsystime_ticks
      (systime_tick hw s).1.curr_ms with
  | none => rw [hc1] at h; simp at h
  | some p1 =>
    obtain ⟨l1, m1⟩ := p1
    rw [hc1] at h
    simp only [Option.some_bind] at h
    obtain ⟨he1l, he1m⟩ := catchup_eq hc50 fuel hwfl hwfm hc1
    rw [h50'] at he1l he1m
    have hn1le : (sub32 (systime_tick hw s).2 (systime_tick hw s).1.lastsystime_ticks - 1)
          / (50 * (systime_tick hw s).1.ticks1ms) * (50 * (systime_tick hw s).1.ticks1ms)
        ≤ sub32 (systime_tick hw s).2 (systime_tick hw s).1.lastsystime_ticks :=
      le_trans (Nat.div_mul_le_self _ _) (by omega)
    have hres1 : sub32 (systime_tick hw s).2 l1
        = sub32 (systime_tick hw s).2 (systime_tick hw s).1.lastsystime_ticks
          - (sub32 (systime_tick hw s).2 (systime_tick hw s).1.lastsystime_ticks - 1)
            / (50 * (systime_tick hw s).1.ticks1ms)
            * (50 * (systime_tick hw s).1.ticks1ms) := by
      rw [he1l, sub32_add32 hn1le]
    cases hc2 : catchup fuel (systime_tick hw s).1.ticks1ms 1
        (systime_tick hw s).2 l1 m1 with
    | none => rw [hc2] at h; simp at h
    | some p2 =>
      obtain ⟨l2, m2⟩ := p2
      rw [hc2] at h
      simp only [Option.some_bind, Option.some.injEq] at h
      subst h
      obtain ⟨hl1U, hm1U⟩ := catchup_bound fuel hwfl hwfm hc1
      obtain ⟨he2l, he2m⟩ := catchup_eq h1' fuel hl1U hm1U hc2
      have hsplit := chunk_split
        (d := sub32 (systime_tick hw s).2 (systime_tick hw s).1.lastsystime_ticks)
        (t := (systime_tick hw s).1.ticks1ms) h1'
      have hll : l2 = add32 (systime_tick hw s).1.lastsystime_ticks
          ((sub32 (systime_tick hw s).2 (systime_tick hw s).1.lastsystime_ticks - 1)
            / (systime_tick hw s).1.ticks1ms * (systime_tick hw s).1.ticks1ms) := by
        rw [he2l, hres1, he1l, add32_add32]
        congr 1
        rw [← hsplit]
        ring
      have hml : m2 = add32 (systime_tick hw s).1.curr_ms
          ((sub32 (systime_tick hw s).2 (systime_tick hw s).1.lastsystime_ticks - 1)
            / (systime_tick hw s).1.ticks1ms) := by
        rw [he2m, hres1, he1m, add32_add32]
        congr 1
        rw [← hsplit]
        ring
      rw [hll, hml]

/-- Totality of `systime_ms`: fuel equal to the entry tick residual is
enough (the chunked loops each iterate at most `residual / chunk ≤ residual`
times), provided both chunk constants are positive — they need not be
coherent with each other. -/
theorem systime_ms_isSome {hw : ℕ} {s : State} (hwf : s.wf)
    (h1 : 1 ≤ s.ticks1ms) (h50 : 1 ≤ s.ticks50ms) :
    ∀ fuel, sub32 (systime_tick hw s).2 (systime_tick hw s).1.lastsystime_ticks ≤ fuel →
      (systime_ms fuel hw s).isSome := by
  intro fuel hfuel
  obtain ⟨htwf, _⟩ := systime_tick_wf hw hwf
  obtain ⟨hfm, hft, hfp, hfl, hf1, hf50, hfcm, hfcs, hflm⟩ :=
    systime_tick_frame hw s
  have h1' : 1 ≤ (systime_tick hw s).1.ticks1ms := by rw [hf1]; exact h1
  have hc50 : 0 < (systime_tick hw s).1.ticks50ms := by
    rw [hf50]
    exact h50
  have hwfl : (systime_tick hw s).1.lastsystime_ticks < U32 := htwf.2.2.2.2.1
  have hwfm : (systime_tick hw s).1.curr_ms < U32 := htwf.2.2.2.2.2.2.2.1
  simp only [systime_ms]
  have hs1 := catchup_isSome 50 (systime_tick hw s).2 hc50 fuel
    (systime_tick hw s).1.lastsystime_ticks (systime_tick hw s).1.curr_ms hfuel
  cases hc1 : catchup fuel (systime_tick hw s).1.ticks50ms 50
      (systime_tick hw s).2 (systime_tick hw s).1.lastsystime_ticks
      (systime_tick hw s).1.curr_ms with
  | none => rw [hc1] at hs1; simp at hs1
  | some p1 =>
    obtain ⟨l1, m1⟩ := p1
    simp only [Option.some_bind]
    obtain ⟨he1l, _⟩ := catchup_eq hc50 fuel hwfl hwfm hc1
    have hn1le : (sub32 (systime_tick hw s).2 (systime_tick hw s).1.lastsystime_ticks - 1)
          / (systime_tick hw s).1.ticks50ms * (systime_tick hw s).1.ticks50ms
        ≤ sub32 (systime_tick hw s).2 (systime_tick hw s).1.lastsystime_ticks :=
      le_trans (Nat.div_mul_le_self _ _) (by omega)
    have hres1 : sub32 (systime_tick hw s).2 l1
        ≤ sub32 (systime_tick hw s).2 (systime_tick hw s).1.lastsystime_ticks := by
      rw [he1l, sub32_add32 hn1le]
      omega
    have hs2 := catchup_isSome 1 (systime_tick hw s).2 h1' fuel l1 m1
      (le_trans hres1 hfuel)
    cases hc2 : catchup fuel (systime_tick hw s).1.ticks1ms 1
        (systime_tick hw s).2 l1 m1 with
    | none => rw [hc2] at hs2; simp at hs2
    | some p2 => simp

/-- `systime_ms` keeps the state well formed and its value reduced. -/
theorem systime_ms_wf {hw fuel : ℕ} {s s1 : State} {m : ℕ} (hwf : s.wf)
    (h : systime_ms fuel hw s = some (s1, m)) : s1.wf ∧ m < U32 := by
  obtain ⟨htwf, _⟩ := systime_tick_wf hw hwf
  have hwfl : (systime_tick hw s).1.lastsystime_ticks < U32 := htwf.2.2.2.2.1
  have hwfm : (systime_tick hw s).1.curr_ms < U32 := htwf.2.2.2.2.2.2.2.1
  simp only [systime_ms] at h
  cases hc1 : catchup fuel (systime_tick hw s).1.ticks50ms 50
      (systime_tick hw s).2 (systime_tick hw s).1.lastsystime_ticks
      (systime_tick hw s).1.curr_ms with
  | none => rw [hc1] at h; simp at h
  | some p1 =>
    obtain ⟨l1, m1⟩ := p1
    rw [hc1] at h
    simp only [Option.some_bind] at h
    obtain ⟨hl1U, hm1U⟩ := catchup_bound fuel hwfl hwfm hc1
    cases hc2 : catchup fuel (systime_tick hw s).1.ticks1ms 1
        (systime_tick hw s).2 l1 m1 with
    | none => rw [hc2] at h; simp at h
    | some p2 =>
      obtain ⟨l2, m2⟩ := p2
      rw [hc2] at h
      simp only [Option.some_bind, Option.some.injEq] at h
      obtain ⟨hl2U, hm2U⟩ := catchup_bound fuel hl1U hm1U hc2
      obtain ⟨w1, w2, w3, w4, w5, w6, w7, w8, w9, w10⟩ := htwf
      cases h
      exact ⟨⟨w1, w2, w3, w4, hl2U, w6, w7, hm2U, w9, w10⟩, hm2U⟩

/-- `systime_ms` returns the updated `systime_curr_ms`, the final tick
residual is at most `ticks1ms` (each loop exits only when its residual is
at most its chunk, so the residual is also at most `ticks50ms`), and the
configuration and ms/sec bookkeeping fields it does not own are
untouched. -/
theorem systime_ms_shape {hw fuel : ℕ} {s s1 : State} {m : ℕ}
    (h : systime_ms fuel hw s = some (s1, m)) :
    m = s1.curr_ms ∧
    sub32 (systime_tick hw s).2 s1.lastsystime_ticks ≤ s1.ticks1ms ∧
    sub32 (systime_tick hw s).2 s1.lastsystime_ticks ≤ s1.ticks50ms ∧
    s1.ticks1ms = s.ticks1ms ∧ s1.ticks50ms = s.ticks50ms ∧
    s1.passThrough = s.passThrough ∧ s1.mask = s.mask ∧
    s1.tickmult = s.tickmult ∧ s1.curr_sec = s.curr_sec ∧
    s1.last_ms = s.last_ms ∧
    s1.last_timer_ticks = (systime_tick hw s).1.last_timer_ticks ∧
    s1.curr_ticks = (systime_tick hw s).1.curr_ticks := by
  obtain ⟨hfm, hft, hfp, hfl, hf1, hf50, hfcm, hfcs, hflm⟩ :=
    systime_tick_frame hw s
  simp only [systime_ms] at h
  cases hc1 : catchup fuel (systime_tick hw s).1.ticks50ms 50
      (systime_tick hw s).2 (systime_tick hw s).1.lastsystime_ticks
      (systime_tick hw s).1.curr_ms with
  | none => rw [hc1] at h; simp at h
  | some p1 =>
    obtain ⟨l1, m1⟩ := p1
    rw [hc1] at h
    simp only [Option.some_bind] at h
    cases hc2 : catchup fuel (systime_tick hw s).1.ticks1ms 1
        (systime_tick hw s).2 l1 m1 with
    | none => rw [hc2] at h; simp at h
    | some p2 =>
      obtain ⟨l2, m2⟩ := p2
      rw [hc2] at h
      simp only [Option.some_bind, Option.some.injEq] at h
      have hres := catchup_res fuel hc2
      have hres50 : sub32 (systime_tick hw s).2 l2
          ≤ (systime_tick hw s).1.ticks50ms :=
        le_trans (catchup_res_mono fuel hc2) (catchup_res fuel hc1)
      cases h
      exact ⟨rfl, hres, hres50, hf1, hf50, hfp, hfm, hft, hfcs, hflm,
        rfl, rfl⟩

/-- `systime_ms` reads neither `systime_curr_sec` nor `last_ms`
(they belong to the seconds layer). -/
theorem systime_ms_indep (fuel hw c d : ℕ) (s : State) :
    systime_ms fuel hw { s with curr_sec := c, last_ms := d }
      = (systime_ms fuel hw s).map
          (fun r => ({ r.1 with curr_sec := c, last_ms := d }, r.2)) := by
  simp only [systime_ms, systime_tick_indep]
  cases hc1 : catchup fuel (systime_tick hw s).1.ticks50ms 50
      (systime_tick hw s).2 (systime_tick hw s).1.lastsystime_ticks
      (systime_tick hw s).1.curr_ms with
  | none => simp [hc1]
  | some p1 =>
    obtain ⟨l1, m1⟩ := p1
    simp only [Option.some_bind, Option.map_some]
    cases hc2 : catchup fuel (systime_tick hw s).1.ticks1ms 1
        (systime_tick hw s).2 l1 m1 with
    | none => simp
    | some p2 => simp

/-- Once `systime_ms` has caught up, re-querying it with the same hardware
reading (any fuel) is a no-op returning the same value, even if the seconds
layer has meanwhile rewritten `curr_sec` / `last_ms`: both loops exit only
when their residual is at most their chunk, so neither fires again.  This
needs no assumption about the chunk constants at all. -/
theorem systime_ms_stable {hw fuel : ℕ} {s s1 : State} {m : ℕ} (hwf : s.wf)
    (h : systime_ms fuel hw s = some (s1, m)) :
    ∀ fuel2, systime_ms fuel2 hw s1 = some (s1, m) := by
  intro fuel2
  obtain ⟨hs1wf, hmU⟩ := systime_ms_wf hwf h
  obtain ⟨hmeq, hres, hres50, hcfg1, hcfg50, hcfgp, hcfgm, hcfgt, hcfgs,
    hcfglm, hltt, hctk⟩ := systime_ms_shape h
  have htk2 : systime_tick hw s1 = (s1, (systime_tick hw s).2) :=
    systime_tick_second hs1wf hltt hctk hcfgp
  simp only [systime_ms, htk2]
  rw [catchup_of_le hres50 fuel2]
  simp only [Option.some_bind]
  rw [catchup_of_le hres fuel2]
  simp only [Option.some_bind, Option.some.injEq]
  rw [hmeq]

/-!  The seconds accumulator (split variant). -/

/-- Closed form of the seconds catch-up loop, for states whose millisecond
layer is already caught up (so every `systime_ms()` re-evaluation in the
loop condition returns the same `m` and does not move the state): the loop
folds `(m - last_ms) / 1000` whole seconds, exactly — its comparison is
`>=`, not strict. -/
theorem systime_sec_aux {hw : ℕ} {s1 : State} {m : ℕ}
    (hstab : ∀ f x y, systime_ms f hw { s1 with last_ms := x, curr_sec := y }
        = some ({ s1 with last_ms := x, curr_sec := y }, m)) :
    ∀ fuel x y {r}, x < U32 → y < U32 →
      systime_sec fuel hw { s1 with last_ms := x, curr_sec := y } = some r →
      r = ({ s1 with last_ms := add32 x (sub32 m x / 1000 * 1000),
                     curr_sec := add32 y (sub32 m x / 1000) },
           add32 y (sub32 m x / 1000)) := by
  intro fuel
  induction fuel with
  | zero =>
    intro x y r hx hy h
    simp only [systime_sec] at h
    rw [hstab 0 x y] at h
    simp only [Option.some_bind] at h
    by_cases hc : 1000 ≤ sub32 m x
    · rw [if_pos hc] at h
      exact absurd h (by simp)
    · rw [if_neg hc] at h
      simp only [Option.some.injEq] at h
      subst h
      have hk : sub32 m x / 1000 = 0 := Nat.div_eq_of_lt (by omega)
      rw [hk]
      simp [add32_zero hx, add32_zero hy]
  | succ f ih =>
    intro x y r hx hy h
    simp only [systime_sec] at h
    rw [hstab (f + 1) x y] at h
    simp only [Option.some_bind] at h
    by_cases hc : 1000 ≤ sub32 m x
    · rw [if_pos hc] at h
      have hrec := ih (add32 x 1000) (add32 y 1) (add32_lt ..) (add32_lt ..)
        (by simpa using h)
      rw [hrec, sub32_add32 hc, add32_add32, add32_add32]
      have e1 : 1 + (sub32 m x - 1000) / 1000 = sub32 m x / 1000 := by omega
      have e2 : 1000 + (sub32 m x - 1000) / 1000 * 1000
          = sub32 m x / 1000 * 1000 := by omega
      rw [e1, e2]
    · rw [if_neg hc] at h
      simp only [Option.some.injEq] at h
      subst h
      have hk : sub32 m x / 1000 = 0 := Nat.div_eq_of_lt (by omega)
      rw [hk]
      simp [add32_zero hx, add32_zero hy]

/-- Closed form of `systime_sec` in terms of the (unique) result of the
embedded `systime_ms` at the same fuel. -/
theorem systime_sec_eq {hw : ℕ} {s s1 : State} {m : ℕ} (hwf : s.wf) :
    ∀ fuel {r}, systime_ms fuel hw s = some (s1, m) →
      systime_sec fuel hw s = some r →
      r = ({ s1 with
              last_ms := add32 s1.last_ms (sub32 m s1.last_ms / 1000 * 1000),
              curr_sec := add32 s1.curr_sec (sub32 m s1.last_ms / 1000) },
           add32 s1.curr_sec (sub32 m s1.last_ms / 1000)) := by
  intro fuel r hms hsec
  obtain ⟨hs1wf, hmU⟩ := systime_ms_wf hwf hms
  have hstab0 := systime_ms_stable hwf hms
  have hstab : ∀ f x y,
      systime_ms f hw { s1 with last_ms := x, curr_sec := y }
        = some ({ s1 with last_ms := x, curr_sec := y }, m) := by
    intro f x y
    have hind := systime_ms_indep f hw y x s1
    rw [hstab0 f] at hind
    simpa using hind
  have hxU : s1.last_ms < U32 := hs1wf.2.2.2.2.2.2.2.2.2
  have hyU : s1.curr_sec < U32 := hs1wf.2.2.2.2.2.2.2.2.1
  cases fuel with
  | zero =>
    simp only [systime_sec] at hsec
    rw [hms] at hsec
    simp only [Option.some_bind] at hsec
    by_cases hc : 1000 ≤ sub32 m s1.last_ms
    · rw [if_pos hc] at hsec
      exact absurd hsec (by simp)
    · rw [if_neg hc] at hsec
      simp only [Option.some.injEq] at hsec
      subst hsec
      have hk : sub32 m s1.last_ms / 1000 = 0 := Nat.div_eq_of_lt (by omega)
      rw [hk]
      simp [add32_zero hxU, add32_zero hyU]
  | succ f =>
    simp only [systime_sec] at hsec
    rw [hms] at hsec
    simp only [Option.some_bind] at hsec
    by_cases hc : 1000 ≤ sub32 m s1.last_ms
    · rw [if_pos hc] at hsec
      have hrec := systime_sec_aux hstab f (add32 s1.last_ms 1000)
        (add32 s1.curr_sec 1) (add32_lt ..) (add32_lt ..) hsec
      rw [hrec, sub32_add32 hc, add32_add32, add32_add32]
      have e1 : 1 + (sub32 m s1.last_ms - 1000) / 1000
          = sub32 m s1.last_ms / 1000 := by omega
      have e2 : 1000 + (sub32 m s1.last_ms - 1000) / 1000 * 1000
          = sub32 m s1.last_ms / 1000 * 1000 := by omega
      rw [e1, e2]
    · rw [if_neg hc] at hsec
      simp only [Option.some.injEq] at hsec
      subst hsec
      have hk : sub32 m s1.last_ms / 1000 = 0 := Nat.div_eq_of_lt (by omega)
      rw [hk]
      simp [add32_zero hxU, add32_zero hyU]

/-- `systime_sec` returns the updated `systime_curr_sec`. -/
theorem systime_sec_ret {hw : ℕ} :
    ∀ fuel {s st : State} {v : ℕ},
      systime_sec fuel hw s = some (st, v) → v = st.curr_sec := by
  intro fuel
  induction fuel with
  | zero =>
    intro s st v h
    simp only [systime_sec] at h
    cases hms : systime_ms 0 hw s with
    | none => rw [hms] at h; simp at h
    | some p =>
      rw [hms] at h
      simp only [Option.some_bind] at h
      split at h
      · exact absurd h (by simp)
      · simp only [Option.some.injEq] at h
        injection h with h1 h2
        subst h1
        subst h2
        rfl
  | succ f ih =>
    intro s st v h
    simp only [systime_sec] at h
    cases hms : systime_ms (f + 1) hw s with
    | none => rw [hms] at h; simp at h
    | some p =>
      rw [hms] at h
      simp only [Option.some_bind] at h
      split at h
      · exact ih h
      · simp only [Option.some.injEq] at h
        injection h with h1 h2
        subst h1
        subst h2
        rfl

/-- `systime_sec` keeps the state well formed. -/
theorem systime_sec_wf {hw : ℕ} :
    ∀ fuel {s st : State} {v : ℕ}, s.wf →
      systime_sec fuel hw s = some (st, v) → st.wf ∧ v < U32 := by
  intro fuel
  induction fuel with
  | zero =>
    intro s st v hwf h
    simp only [systime_sec] at h
    cases hms : systime_ms 0 hw s with
    | none => rw [hms] at h; simp at h
    | some p =>
      rw [hms] at h
      simp only [Option.some_bind] at h
      obtain ⟨hpwf, _⟩ := systime_ms_wf hwf hms
      split at h
      · exact absurd h (by simp)
      · simp only [Option.some.injEq] at h
        injection h with h1 h2
        subst h1
        subst h2
        exact ⟨hpwf, hpwf.2.2.2.2.2.2.2.2.1⟩
  | succ f ih =>
    intro s st v hwf h
    simp only [systime_sec] at h
    cases hms : systime_ms (f + 1) hw s with
    | none => rw [hms] at h; simp at h
    | some p =>
      rw [hms] at h
      simp only [Option.some_bind] at h
      obtain ⟨hpwf, _⟩ := systime_ms_wf hwf hms
      obtain ⟨w1, w2, w3, w4, w5, w6, w7, w8, w9, w10⟩ := hpwf
      split at h
      · refine ih ?_ h
        exact ⟨w1, w2, w3, w4, w5, w6, w7, w8, add32_lt .., add32_lt ..⟩
      · simp only [Option.some.injEq] at h
        injection h with h1 h2
        subst h1
        subst h2
        exact ⟨⟨w1, w2, w3, w4, w5, w6, w7, w8, w9, w10⟩, w9⟩

/-- Totality of the seconds loop from a caught-up millisecond layer:
`fuel` outer iterations suffice once `1000 * fuel` covers the ms residual. -/
theorem systime_sec_aux_isSome {hw : ℕ} {s1 : State} {m : ℕ}
    (hstab : ∀ f x y, systime_ms f hw { s1 with last_ms := x, curr_sec := y }
        = some ({ s1 with last_ms := x, curr_sec := y }, m)) :
    ∀ fuel x y, sub32 m x ≤ 1000 * fuel →
      (systime_sec fuel hw { s1 with last_ms := x, curr_sec := y }).isSome := by
  intro fuel
  induction fuel with
  | zero =>
    intro x y hb
    simp only [systime_sec]
    rw [hstab 0 x y]
    simp only [Option.some_bind]
    rw [if_neg (by omega)]
    simp
  | succ f ih =>
    intro x y hb
    simp only [systime_sec]
    rw [hstab (f + 1) x y]
    simp only [Option.some_bind]
    by_cases hc : 1000 ≤ sub32 m x
    · rw [if_pos hc]
      have hsub : sub32 m (add32 x 1000) = sub32 m x - 1000 := sub32_add32 hc
      have := ih (add32 x 1000) (add32 y 1) (by omega)
      simpa using this
    · rw [if_neg hc]
      simp

/-- `systime_sec` terminates: some fuel returns `some`, provided the state
is well formed and both millisecond chunk constants are positive. -/
theorem systime_sec_isSome {hw : ℕ} {s : State} (hwf : s.wf)
    (h1 : 1 ≤ s.ticks1ms) (h50 : 1 ≤ s.ticks50ms) :
    ∃ fuel, (systime_sec fuel hw s).isSome := by
  obtain ⟨G, hG⟩ : ∃ G, G = sub32 (systime_tick hw s).2
      (systime_tick hw s).1.lastsystime_ticks + U32 := ⟨_, rfl⟩
  refine ⟨G + 1, ?_⟩
  have hms0 := @systime_ms_isSome hw s hwf h1 h50 (G + 1) (by omega)
  obtain ⟨p, hp⟩ := Option.isSome_iff_exists.mp hms0
  obtain ⟨s1, m⟩ := p
  have hstab0 := systime_ms_stable hwf hp
  have hstab : ∀ f x y,
      systime_ms f hw { s1 with last_ms := x, curr_sec := y }
        = some ({ s1 with last_ms := x, curr_sec := y }, m) := by
    intro f x y
    have hind := systime_ms_indep f hw y x s1
    rw [hstab0 f] at hind
    simpa using hind
  simp only [systime_sec]
  rw [hp]
  simp only [Option.some_bind]
  by_cases hc : 1000 ≤ sub32 m s1.last_ms
  · rw [if_pos hc]
    have hsub : sub32 m (add32 s1.last_ms 1000) = sub32 m s1.last_ms - 1000 :=
      sub32_add32 hc
    have hlt := sub32_lt m s1.last_ms
    have := systime_sec_aux_isSome hstab G
      (add32 s1.last_ms 1000) (add32 s1.curr_sec 1) (by omega)
    simpa using this
  · rw [if_neg hc]
    simp

/-- `systime_sec_set(T)` lands `systime_curr_sec` exactly on `T` (mod 2^32)
and changes nothing else relative to the state the embedded seconds query
produced. -/
theorem systime_sec_set_eq {hw fuel T : ℕ} {s st : State} {cur : ℕ}
    (hwf : s.wf) (hT : T < U32)
    (hsec : systime_sec fuel hw s = some (st, cur)) :
    systime_sec_set fuel hw T s = some { st with curr_sec := T } := by
  have hret := systime_sec_ret fuel hsec
  obtain ⟨hstwf, hcurU⟩ := systime_sec_wf fuel hwf hsec
  simp only [systime_sec_set]
  rw [hsec]
  simp only [Option.some_bind]
  rw [Nat.mod_eq_of_lt hT]
  subst hret
  by_cases hcase : T < st.curr_sec
  · rw [if_pos hcase]
    have he : sub32 st.curr_sec (st.curr_sec - T) = T := by
      simp only [sub32, U32] at *
      omega
    rw [he]
  · rw [if_neg hcase]
    have he : add32 st.curr_sec (T - st.curr_sec) = T := by
      simp only [add32, U32] at *
      omega
    rw [he]

end Split

/-!  The fused variant (`systime.c`). -/

namespace Combined

/-- `systicks` touches only `ticks` and `last_timer_ticks`. -/
theorem systicks_frame (hw : ℕ) (s : State) :
    (systicks hw s).1.tickmult = s.tickmult ∧
    (systicks hw s).1.mask = s.mask ∧
    (systicks hw s).1.ticks1ms = s.ticks1ms ∧
    (systicks hw s).1.ticks10ms = s.ticks10ms ∧
    (systicks hw s).1.ticks100ms = s.ticks100ms ∧
    (systicks hw s).1.milisec = s.milisec ∧
    (systicks hw s).1.sec = s.sec ∧
    (systicks hw s).1.sec_offset = s.sec_offset ∧
    (systicks hw s).1.use_hw_systicks = s.use_hw_systicks ∧
    (systicks hw s).1.last_systime_ticks = s.last_systime_ticks ∧
    (systicks hw s).1.last_ms = s.last_ms := by
  unfold systicks
  split <;> simp

theorem systicks_wf (hw : ℕ) {s : State} (h : s.wf) :
    (systicks hw s).1.wf ∧ (systicks hw s).2 < U32 := by
  obtain ⟨w1, w2, w3, w4, w5, w6, w7, w8, w9, w10, w11, w12⟩ := h
  unfold State.wf systicks
  split
  · exact ⟨⟨w1, w2, w3, w4, w5, w6, w7, w8, w9, w10, w11, w12⟩,
      Nat.mod_lt _ U32_pos⟩
  · exact ⟨⟨add32_lt .., w2, w3, w4, w5, w6, w7, w8, w9,
      Nat.mod_lt _ U32_pos, w11, w12⟩, add32_lt ..⟩

/-- `systicks` reads neither `sec_offset` nor any ms/sec bookkeeping. -/
theorem systicks_offset_indep (hw o : ℕ) (s : State) :
    systicks hw { s with sec_offset := o }
      = ({ (systicks hw s).1 with sec_offset := o }, (systicks hw s).2) := by
  cases hu : s.use_hw_systicks
  · simp [systicks, hu]
  · simp [systicks, hu]

/-- Whenever `systime3` returns: the triple carries `sec + sec_offset`, the
updated milliseconds (also the return value) and the fresh tick sample; the
final tick residual is at most `ticks1ms`; and the configuration fields are
untouched. -/
theorem systime3_shape {hw fuel : ℕ} {s st : State} {t3 : systime3_t}
    {mv : ℕ} (h : systime3 fuel hw s = some (st, t3, mv)) :
    t3.sec = add32 st.sec st.sec_offset ∧ t3.msec = mv ∧ mv = st.milisec ∧
    t3.ticks = (systicks hw s).2 ∧
    sub32 (systicks hw s).2 st.last_systime_ticks ≤ s.ticks1ms ∧
    st.sec_offset = s.sec_offset ∧ st.ticks1ms = s.ticks1ms ∧
    st.ticks10ms = s.ticks10ms ∧ st.ticks100ms = s.ticks100ms ∧
    st.mask = s.mask ∧ st.tickmult = s.tickmult ∧
    st.use_hw_systicks = s.use_hw_systicks := by
  obtain ⟨hft, hfm, hf1, hf10, hf100, hfms, hfsec, hfo, hfu, hfl, hflm⟩ :=
    systicks_frame hw s
  simp only [systime3] at h
  cases hc1 : catchup fuel (systicks hw s).1.ticks100ms 100 (systicks hw s).2
      (systicks hw s).1.last_systime_ticks (systicks hw s).1.milisec with
  | none => rw [hc1] at h; simp at h
  | some p1 =>
    obtain ⟨l1, m1⟩ := p1
    rw [hc1] at h
    simp only [Option.some_bind] at h
    cases hc2 : catchup fuel (systicks hw s).1.ticks10ms 10
        (systicks hw s).2 l1 m1 with
    | none => rw [hc2] at h; simp at h
    | some p2 =>
      obtain ⟨l2, m2⟩ := p2
      rw [hc2] at h
      simp only [Option.some_bind] at h
      cases hc3 : catchup fuel (systicks hw s).1.ticks1ms 1
          (systicks hw s).2 l2 m2 with
      | none => rw [hc3] at h; simp at h
      | some p3 =>
        obtain ⟨l3, m3⟩ := p3
        rw [hc3] at h
        simp only [Option.some_bind] at h
        cases hc4 : catchup fuel 1000 1 m3 (systicks hw s).1.last_ms
            (systicks hw s).1.sec with
        | none => rw [hc4] at h; simp at h
        | some p4 =>
          obtain ⟨lm, sc⟩ := p4
          rw [hc4] at h
          simp only [Option.some_bind, Option.some.injEq] at h
          have hres := catchup_res fuel hc3
          cases h
          exact ⟨rfl, rfl, rfl, rfl, hf1 ▸ hres, hfo, hf1, hf10, hf100,
            hfm, hft, hfu⟩

/-- `systime3` keeps the state well formed. -/
theorem systime3_wf {hw fuel : ℕ} {s st : State} {t3 : systime3_t} {mv : ℕ}
    (hwf : s.wf) (h : systime3 fuel hw s = some (st, t3, mv)) :
    st.wf ∧ mv < U32 := by
  obtain ⟨htkwf, _⟩ := systicks_wf hw hwf
  have hwl : (systicks hw s).1.last_systime_ticks < U32 := htkwf.2.2.2.2.2.2.2.2.2.2.1
  have hwm : (systicks hw s).1.milisec < U32 := htkwf.2.2.2.2.2.2.1
  have hwlm : (systicks hw s).1.last_ms < U32 := htkwf.2.2.2.2.2.2.2.2.2.2.2
  have hwsec : (systicks hw s).1.sec < U32 := htkwf.2.2.2.2.2.2.2.1
  simp only [systime3] at h
  cases hc1 : catchup fuel (systicks hw s).1.ticks100ms 100 (systicks hw s).2
      (systicks hw s).1.last_systime_ticks (systicks hw s).1.milisec with
  | none => rw [hc1] at h; simp at h
  | some p1 =>
    obtain ⟨l1, m1⟩ := p1
    rw [hc1] at h
    simp only [Option.some_bind] at h
    obtain ⟨hb1l, hb1m⟩ := catchup_bound fuel hwl hwm hc1
    cases hc2 : catchup fuel (systicks hw s).1.ticks10ms 10
        (systicks hw s).2 l1 m1 with
    | none => rw [hc2] at h; simp at h
    | some p2 =>
      obtain ⟨l2, m2⟩ := p2
      rw [hc2] at h
      simp only [Option.some_bind] at h
      obtain ⟨hb2l, hb2m⟩ := catchup_bound fuel hb1l hb1m hc2
      cases hc3 : catchup fuel (systicks hw s).1.ticks1ms 1
          (systicks hw s).2 l2 m2 with
      | none => rw [hc3] at h; simp at h
      | some p3 =>
        obtain ⟨l3, m3⟩ := p3
        rw [hc3] at h
        simp only [Option.some_bind] at h
        obtain ⟨hb3l, hb3m⟩ := catchup_bound fuel hb2l hb2m hc3
        cases hc4 : catchup fuel 1000 1 m3 (systicks hw s).1.last_ms
            (systicks hw s).1.sec with
        | none => rw [hc4] at h; simp at h
        | some p4 =>
          obtain ⟨lm, sc⟩ := p4
          rw [hc4] at h
          simp only [Option.some_bind, Option.some.injEq] at h
          obtain ⟨hb4l, hb4m⟩ := catchup_bound fuel hwlm hwsec hc4
          obtain ⟨w1, w2, w3, w4, w5, w6, w7, w8, w9, w10, w11, w12⟩ := htkwf
          cases h
          exact ⟨⟨w1, w2, w3, w4, w5, w6, hb3m, hb4m, w9, w10, hb3l, hb4l⟩,
            hb3m⟩

/-- `systime3` terminates for some fuel whenever all three tick chunk
constants are positive (the seconds chunk is the literal 1000): every
residual a `sub32` produces is below 2^32, so fuel 2^32 covers every
loop. -/
theorem systime3_isSome {hw : ℕ} {s : State} (h1 : 1 ≤ s.ticks1ms)
    (h10 : 1 ≤ s.ticks10ms) (h100 : 1 ≤ s.ticks100ms) :
    ∃ fuel, (systime3 fuel hw s).isSome := by
  obtain ⟨hft, hfm, hf1, hf10, hf100, _⟩ := systicks_frame hw s
  refine ⟨U32, ?_⟩
  simp only [systime3]
  have hs1 := catchup_isSome 100 (systicks hw s).2 (hf100 ▸ h100) U32
    (systicks hw s).1.last_systime_ticks (systicks hw s).1.milisec
    (le_of_lt (sub32_lt ..))
  cases hc1 : catchup U32 (systicks hw s).1.ticks100ms 100 (systicks hw s).2
      (systicks hw s).1.last_systime_ticks (systicks hw s).1.milisec with
  | none => rw [hc1] at hs1; simp at hs1
  | some p1 =>
    obtain ⟨l1, m1⟩ := p1
    simp only [Option.some_bind]
    have hs2 := catchup_isSome 10 (systicks hw s).2 (hf10 ▸ h10) U32 l1 m1
      (le_of_lt (sub32_lt ..))
    cases hc2 : catchup U32 (systicks hw s).1.ticks10ms 10 (systicks hw s).2
        l1 m1 with
    | none => rw [hc2] at hs2; simp at hs2
    | some p2 =>
      obtain ⟨l2, m2⟩ := p2
      simp only [Option.some_bind]
      have hs3 := catchup_isSome 1 (systicks hw s).2 (hf1 ▸ h1) U32 l2 m2
        (le_of_lt (sub32_lt ..))
      cases hc3 : catchup U32 (systicks hw s).1.ticks1ms 1 (systicks hw s).2
          l2 m2 with
      | none => rw [hc3] at hs3; simp at hs3
      | some p3 =>
        obtain ⟨l3, m3⟩ := p3
        simp only [Option.some_bind]
        have hs4 := catchup_isSome 1 m3 (c := 1000) (by norm_num) U32
          (systicks hw s).1.last_ms (systicks hw s).1.sec
          (le_of_lt (sub32_lt ..))
        cases hc4 : catchup U32 1000 1 m3 (systicks hw s).1.last_ms
            (systicks hw s).1.sec with
        | none => rw [hc4] at hs4; simp at hs4
        | some p4 => simp

/-- `systime3` never reads `sec_offset` except to build the reported
seconds of the output triple. -/
theorem systime3_offset_indep (fuel hw o : ℕ) (s : State) :
    systime3 fuel hw { s with sec_offset := o }
      = (systime3 fuel hw s).map
          (fun r => ({ r.1 with sec_offset := o },
                     ⟨add32 r.1.sec o, r.2.1.msec, r.2.1.ticks⟩, r.2.2)) := by
  simp only [systime3, systicks_offset_indep]
  cases hc1 : catchup fuel (systicks hw s).1.ticks100ms 100 (systicks hw s).2
      (systicks hw s).1.last_systime_ticks (systicks hw s).1.milisec with
  | none => simp [hc1]
  | some p1 =>
    obtain ⟨l1, m1⟩ := p1
    simp only [Option.some_bind, Option.map_some]
    cases hc2 : catchup fuel (systicks hw s).1.ticks10ms 10
        (systicks hw s).2 l1 m1 with
    | none => simp
    | some p2 =>
      obtain ⟨l2, m2⟩ := p2
      simp only [Option.some_bind, Option.map_some]
      cases hc3 : catchup fuel (systicks hw s).1.ticks1ms 1
          (systicks hw s).2 l2 m2 with
      | none => simp
      | some p3 =>
        obtain ⟨l3, m3⟩ := p3
        simp only [Option.some_bind, Option.map_some]
        cases hc4 : catchup fuel 1000 1 m3 (systicks hw s).1.last_ms
            (systicks hw s).1.sec with
        | none => simp
        | some p4 => simp

end Combined

/-!  The claims. -/

/-- C1 (counterexample): the integer-divide and subtract-loop
implementations of `systime_ms` are not bit-identical, in two distinct
ways.  (i) With `ticks1ms = 1000` and a sampling instant whose tick
residual is exactly 1000, the loop build (strict `>`) leaves
`systime_curr_ms` at 0 while the divide build returns 1.  (ii) With
`ticks_for_1ms = 2^27` the stored chunk `50 * 2^27 mod 2^32 = 2415919104`
no longer spans 50 ms, and at residual 2415919105 (not a multiple of
`ticks1ms`) the loop build adds 50 ms while the divide build adds 18. -/
theorem spec_c1_counterexample :
    ¬ ((Split.systime_ms 5 1000 exSt).map Prod.snd
        = some (Split.systime_ms_div 1000 exSt).2) ∧
    ¬ ((Split.systime_ms 5 2415919105 exSt27).map Prod.snd
        = some (Split.systime_ms_div 2415919105 exSt27).2) := by
  decide

/-- C1 (amended): in any configuration where the stored `ticks50ms` chunk
is the exact product `50 * ticks1ms` (i.e. the product does not overflow
mod 2^32 — the configurations `systime_time_init` establishes for
`ticks_for_1ms ≤ 85899345`), the divide build and the loop build of
`systime_ms` and `systime_sec` produce identical states and return values
at every call where the elapsed tick residual is not an exact positive
multiple of `ticks1ms`; at exact multiples the loop build lags the divide
build by one millisecond (deferring it to a later call), because its
comparison is strict.  The seconds stage itself (chunk 1000, `>=`
comparison) introduces no further divergence.  Both provisos are forced by
the counterexample: at an exact multiple the strict loop lags, and with an
overflowed chunk the 50 ms loop credits 50 ms for fewer than 50 ms worth
of ticks. -/
theorem spec_c1_theorem (hw : ℕ) (s : Split.State) (hwf : s.wf)
    (h1 : 1 ≤ s.ticks1ms) (h50 : s.ticks50ms = 50 * s.ticks1ms)
    (hnd : ¬ (s.ticks1ms ∣
          sub32 (Split.systime_tick hw s).2 s.lastsystime_ticks ∧
        0 < sub32 (Split.systime_tick hw s).2 s.lastsystime_ticks)) :
    (∀ fuel r, Split.systime_ms fuel hw s = some r →
        r = Split.systime_ms_div hw s) ∧
    (∀ fuel r, Split.systime_sec fuel hw s = some r →
        r = Split.systime_sec_div hw s) := by
  obtain ⟨hfm, hft, hfp, hfl, hf1, hf50, hfcm, hfcs, hflm⟩ :=
    Split.systime_tick_frame hw s
  have hnd' : ¬ ((Split.systime_tick hw s).1.ticks1ms ∣
        sub32 (Split.systime_tick hw s).2
          (Split.systime_tick hw s).1.lastsystime_ticks ∧
      0 < sub32 (Split.systime_tick hw s).2
          (Split.systime_tick hw s).1.lastsystime_ticks) := by
    rw [hf1, hfl]
    exact hnd
  have hdiv : (sub32 (Split.systime_tick hw s).2
        (Split.systime_tick hw s).1.lastsystime_ticks - 1)
        / (Split.systime_tick hw s).1.ticks1ms
      = sub32 (Split.systime_tick hw s).2
          (Split.systime_tick hw s).1.lastsystime_ticks
        / (Split.systime_tick hw s).1.ticks1ms :=
    div_pred_of_not_dvd hnd'
  have hms_part : ∀ fuel r, Split.systime_ms fuel hw s = some r →
      r = Split.systime_ms_div hw s := by
    intro fuel r h
    rw [Split.systime_ms_eq hwf h1 h50 fuel h]
    simp only [Split.systime_ms_div]
    rw [hdiv]
    rw [show mul32 (sub32 (Split.systime_tick hw s).2
          (Split.systime_tick hw s).1.lastsystime_ticks
          / (Split.systime_tick hw s).1.ticks1ms)
          (Split.systime_tick hw s).1.ticks1ms
        = (sub32 (Split.systime_tick hw s).2
            (Split.systime_tick hw s).1.lastsystime_ticks
            / (Split.systime_tick hw s).1.ticks1ms
            * (Split.systime_tick hw s).1.ticks1ms) % U32 from rfl]
    rw [add32_mod_right]
  refine ⟨hms_part, ?_⟩
  intro fuel r h
  have hmssome : ∃ p, Split.systime_ms fuel hw s = some p := by
    cases hms : Split.systime_ms fuel hw s with
    | none =>
      exfalso
      cases fuel <;> simp only [Split.systime_sec] at h <;>
        rw [hms] at h <;> simp at h
    | some p => exact ⟨p, rfl⟩
  obtain ⟨⟨s1, m⟩, hms⟩ := hmssome
  have hrsec := Split.systime_sec_eq hwf fuel hms h
  have hdivms : Split.systime_ms_div hw s = (s1, m) :=
    (hms_part fuel (s1, m) hms).symm
  rw [hrsec]
  simp only [Split.systime_sec_div]
  rw [hdivms]
  rw [show mul32 (sub32 m s1.last_ms / 1000) 1000
      = (sub32 m s1.last_ms / 1000 * 1000) % U32 from rfl]
  rw [add32_mod_right]

/-- C1 (witness): at `ticks1ms = 1000` and residual 1500 (not a multiple)
the two builds agree, for milliseconds and seconds alike. -/
theorem spec_c1_witness :
    Split.systime_ms 5 1500 exSt = some (Split.systime_ms_div 1500 exSt) ∧
    Split.systime_sec 5 1500 exSt = some (Split.systime_sec_div 1500 exSt) := by
  have h := spec_c1_theorem 1500 exSt (by decide) (by decide) (by decide)
    (by decide)
  have hms : Split.systime_ms 5 1500 exSt
      = some (({ exSt with lastsystime_ticks := 1000, curr_ms := 1 } :
          Split.State), 1) := by decide
  have hsec : Split.systime_sec 5 1500 exSt
      = some (({ exSt with lastsystime_ticks := 1000, curr_ms := 1 } :
          Split.State), 0) := by decide
  refine ⟨?_, ?_⟩
  · rw [hms, h.1 5 _ hms]
  · rw [hsec, h.2 5 _ hsec]

/-- C2 (counterexample): after a `systime_ms` call whose entry residual is
exactly `ticks1ms` (1000 ticks), the residual `wide_ticks −
last_aligned_tick` is still 1000, not strictly less than `ticks_per_ms` —
the strict `>` loop leaves a full period unconsumed. -/
theorem spec_c2_counterexample :
    Split.systime_ms 5 1000 exSt = some (exSt, 0) ∧
    ¬ (sub32 (Split.systime_tick 1000 exSt).2 exSt.lastsystime_ticks
        < exSt.ticks1ms) := by
  decide

/-- C2 (amended): after every successful call to `systime_ms` (split
variant) or to the ms stage of `systime3` (fused variant), the residual
`wide_ticks − last_aligned_tick` is at most `ticks_per_ms` — the bound is
`≤`, not `<`, because the catch-up loops compare with strict `>`. -/
theorem spec_c2_theorem :
    (∀ fuel hw (s s1 : Split.State) (m : ℕ),
        Split.systime_ms fuel hw s = some (s1, m) →
        sub32 (Split.systime_tick hw s).2 s1.lastsystime_ticks
          ≤ s1.ticks1ms) ∧
    (∀ fuel hw (s st : Combined.State) (t3 : Combined.systime3_t) (mv : ℕ),
        Combined.systime3 fuel hw s = some (st, t3, mv) →
        sub32 (Combined.systicks hw s).2 st.last_systime_ticks
          ≤ st.ticks1ms) := by
  constructor
  · intro fuel hw s s1 m h
    exact (Split.systime_ms_shape h).2.1
  · intro fuel hw s st t3 mv h
    obtain ⟨_, _, _, _, hres, _, hcfg1, _⟩ := Combined.systime3_shape h
    rw [hcfg1]
    exact hres

/-- C2 (witness): concrete instance of the residual bound at residual
1500, `ticks1ms = 1000`. -/
theorem spec_c2_witness :
    sub32 (Split.systime_tick 1500 exSt).2
        ({ exSt with lastsystime_ticks := 1000, curr_ms := 1 } :
          Split.State).lastsystime_ticks
      ≤ ({ exSt with lastsystime_ticks := 1000, curr_ms := 1 } :
          Split.State).ticks1ms := by
  have hms : Split.systime_ms 5 1500 exSt
      = some (({ exSt with lastsystime_ticks := 1000, curr_ms := 1 } :
          Split.State), 1) := by decide
  exact spec_c2_theorem.1 5 1500 exSt _ _ hms

/-- C3 (counterexample): `systime_time_init(0)` — a zero ticks-per-ms
constant — completes normally and silently stores 0 into `ticks1ms` and
`ticks50ms`; there is no assertion and no error return. -/
theorem spec_c3_counterexample :
    Split.systime_time_init 5 0 0 initSplit
        = some { initSplit with ticks1ms := 0, ticks50ms := 0 } ∧
    ({ initSplit with ticks1ms := 0, ticks50ms := 0 } :
        Split.State).ticks1ms = 0 := by
  decide

/-- C3 (amended): none of the three init functions validates its
arguments: whatever values are passed — including a zero ticks-per-ms, a
zero multiplier, or an arbitrary bit width — are stored unconditionally
(mod 2^32); rejection is only a documented caller obligation. -/
theorem spec_c3_theorem :
    (∀ fuel hw t (s r : Split.State),
        Split.systime_time_init fuel hw t s = some r →
        r.ticks1ms = t % U32 ∧ r.ticks50ms = 50 * t % U32) ∧
    (∀ bits mult hw (s : Split.State), ¬ (bits = 32 ∧ mult = 1) →
        (Split.systime_tick_init bits mult hw s).tickmult = mult % U32 ∧
        (Split.systime_tick_init bits mult hw s).mask
          = (2 ^ bits - 1) % U32) ∧
    (∀ bits mult t hw (s : Combined.State),
        (Combined.systime_init bits mult t hw s).ticks1ms = t % U32 ∧
        (Combined.systime_init bits mult t hw s).tickmult = mult % U32) := by
  refine ⟨?_, ?_, ?_⟩
  · intro fuel hw t s r h
    simp only [Split.systime_time_init] at h
    cases hms : Split.systime_ms fuel hw
        { s with ticks1ms := t % U32, ticks50ms := 50 * t % U32 } with
    | none => rw [hms] at h; simp at h
    | some p =>
      rw [hms] at h
      simp only [Option.some_bind, Option.some.injEq] at h
      obtain ⟨_, _, _, hc1, hc50, _⟩ := Split.systime_ms_shape hms
      subst h
      exact ⟨hc1, hc50⟩
  · intro bits mult hw s hne
    simp only [Split.systime_tick_init, if_neg hne]
    obtain ⟨_, hft, _⟩ := Split.systime_tick_frame hw
      { s with passThrough := false, tickmult := mult % U32,
               mask := (2 ^ bits - 1) % U32 }
    exact ⟨hft, (Split.systime_tick_frame hw _).1⟩
  · intro bits mult t hw s
    simp only [Combined.systime_init]
    split <;>
      exact ⟨(Combined.systicks_frame hw _).2.2.1,
        (Combined.systicks_frame hw _).1⟩

/-- C3 (witness): concrete silent acceptances — a zero multiplier at
`systime_tick_init` and zero ticks-per-ms at `systime_init` are stored
as-is. -/
theorem spec_c3_witness :
    ((Split.systime_tick_init 16 0 0 initSplit).tickmult = 0 % U32 ∧
      (Split.systime_tick_init 16 0 0 initSplit).mask
        = (2 ^ 16 - 1) % U32) ∧
    (Combined.systime_init 16 0 0 0 initCombined).ticks1ms = 0 % U32 := by
  refine ⟨spec_c3_theorem.2.1 16 0 0 initSplit (by decide), ?_⟩
  exact (spec_c3_theorem.2.2 16 0 0 0 initCombined).1

/-- C4: in non-pass-through mode each tick query adds exactly
`((raw_now − last_raw) mod 2^W) * multiplier` (in mod-2^32 arithmetic) to
the wide tick counter and stores `raw_now` into `last_raw`; concretely,
with `bit_width = 16` and `multiplier = 1`, the raw samples
0, 500, 65500, 300 produce the widened sequence 0, 500, 65500, 65836 —
the final step adds the wrap delta `(300 − 65500) mod 2^16 = 336`. -/
theorem spec_c4_theorem :
    (∀ hw W (s : Split.State), s.passThrough = false →
        s.mask = 2 ^ W - 1 →
        (Split.systime_tick hw s).1.curr_ticks
          = add32 s.curr_ticks
              (mul32 (sub32 (hw % U32) s.last_timer_ticks % 2 ^ W)
                s.tickmult) ∧
        (Split.systime_tick hw s).1.last_timer_ticks = hw % U32) ∧
    Split.tickRun tick16St [0, 500, 65500, 300] = [0, 500, 65500, 65836] := by
  constructor
  · intro hw W s hp hm
    rw [Split.systime_tick_nonpass hp]
    rw [hm, land_two_pow_sub_one]
    exact ⟨rfl, rfl⟩
  · decide

/-- C4 (witness): the step equation instantiated at the second sample of
the concrete scenario. -/
theorem spec_c4_witness :
    (Split.systime_tick 500 tick16St).1.curr_ticks
      = add32 tick16St.curr_ticks
          (mul32 (sub32 (500 % U32) tick16St.last_timer_ticks % 2 ^ 16)
            tick16St.tickmult) ∧
    (Split.systime_tick 500 tick16St).1.last_timer_ticks = 500 % U32 :=
  spec_c4_theorem.1 500 16 tick16St rfl (by decide)

/-- C5 (counterexample): `systime_sec_set` does not leave `ms_count`
untouched: from a state whose accumulators are not yet caught up
(5000 unconsumed ticks at `ticks1ms = 1000`), the set call itself advances
`systime_curr_ms` from 0 to 4, because it internally runs a full
`systime_sec()` → `systime_ms()` → `systime_tick()` catch-up. -/
theorem spec_c5_counterexample :
    ¬ ((Split.systime_sec_set 20 5000 7 exSt).map (fun st => st.curr_ms)
        = some exSt.curr_ms) := by
  decide

/-- C5 (amended): `systime_adj` writes only `sec_offset` — ticks,
milliseconds and their aligned marks are bit-identical before and after,
and a subsequent `systime3` returns the same milliseconds; and
`systime_sec_set` adds nothing beyond the ordinary catch-up of its
embedded seconds query: its final state is exactly the state after a plain
`systime_sec` call with only `systime_curr_sec` replaced, so a subsequent
millisecond query returns the same value with or without the set call. -/
theorem spec_c5_theorem :
    (∀ a (s : Combined.State),
        (Combined.systime_adj a s).ticks = s.ticks ∧
        (Combined.systime_adj a s).milisec = s.milisec ∧
        (Combined.systime_adj a s).sec = s.sec ∧
        (Combined.systime_adj a s).last_systime_ticks
          = s.last_systime_ticks ∧
        (Combined.systime_adj a s).last_ms = s.last_ms ∧
        (Combined.systime_adj a s).last_timer_ticks = s.last_timer_ticks) ∧
    (∀ fuel hw a (s : Combined.State),
        (Combined.systime3 fuel hw (Combined.systime_adj a s)).map
            (fun r => r.2.2)
          = (Combined.systime3 fuel hw s).map (fun r => r.2.2)) ∧
    (∀ fuel hw T (s st : Split.State) (cur : ℕ), s.wf → T < U32 →
        Split.systime_sec fuel hw s = some (st, cur) →
        Split.systime_sec_set fuel hw T s
            = some { st with curr_sec := T } ∧
        ∀ fuel2, (Split.systime_ms fuel2 hw
              ({ st with curr_sec := T } : Split.State)).map Prod.snd
            = (Split.systime_ms fuel2 hw st).map Prod.snd) := by
  refine ⟨?_, ?_, ?_⟩
  · intro a s
    exact ⟨rfl, rfl, rfl, rfl, rfl, rfl⟩
  · intro fuel hw a s
    show (Combined.systime3 fuel hw { s with sec_offset := add32 s.sec_offset a }).map
        (fun r => r.2.2) = _
    rw [Combined.systime3_offset_indep]
    rw [Option.map_map]
    rfl
  · intro fuel hw T s st cur hwf hT hsec
    refine ⟨Split.systime_sec_set_eq hwf hT hsec, ?_⟩
    intro fuel2
    rw [show ({ st with curr_sec := T } : Split.State)
        = { st with curr_sec := T, last_ms := st.last_ms } from rfl]
    rw [Split.systime_ms_indep]
    rw [Option.map_map]
    cases Split.systime_ms fuel2 hw st <;> rfl

/-- C5 (witness): concrete instance — after `systime_sec_set(7)` from the
un-caught-up state, the state equals the plain-query state with only
`curr_sec` set to 7, and a subsequent ms query agrees. -/
theorem spec_c5_witness :
    Split.systime_sec_set 20 5000 7 exSt
        = some { ({ exSt with lastsystime_ticks := 4000, curr_ms := 4 } :
            Split.State) with curr_sec := 7 } ∧
    (Split.systime_ms 3 5000
        ({ ({ exSt with lastsystime_ticks := 4000, curr_ms := 4 } :
            Split.State) with curr_sec := 7 } : Split.State)).map Prod.snd
      = (Split.systime_ms 3 5000
          ({ exSt with lastsystime_ticks := 4000, curr_ms := 4 } :
            Split.State)).map Prod.snd := by
  have hsec : Split.systime_sec 20 5000 exSt
      = some (({ exSt with lastsystime_ticks := 4000, curr_ms := 4 } :
          Split.State), 0) := by decide
  have h := spec_c5_theorem.2.2 20 5000 7 exSt _ _ (by decide) (by decide)
    hsec
  exact ⟨h.1, h.2 3⟩

/-- C6: `systime_set` implements offset mode — it adds
`target − current_reported_seconds` to `sec_offset`, touching nothing
else of the state its embedded query produced (in particular not the
free-running `sec` counter), and afterwards `sec + sec_offset = target`
(mod 2^32); `systime_sec_set` implements direct mode — afterwards
`systime_curr_sec` is exactly `target`, which in wrapping arithmetic is
`sec_count + (target − sec_count)`. -/
theorem spec_c6_theorem :
    (∀ fuel hw T (s st : Combined.State) (cur : ℕ),
        Combined.systime fuel hw s = some (st, cur) →
        Combined.systime_set fuel hw T s
            = some { st with sec_offset := add32 st.sec_offset (sub32 T cur) } ∧
        cur = add32 st.sec st.sec_offset ∧
        add32 st.sec (add32 st.sec_offset (sub32 T cur)) = T % U32) ∧
    (∀ fuel hw T (s st : Split.State) (cur : ℕ), s.wf → T < U32 →
        Split.systime_sec fuel hw s = some (st, cur) →
        Split.systime_sec_set fuel hw T s = some { st with curr_sec := T } ∧
        T = add32 st.curr_sec (sub32 T st.curr_sec)) := by
  constructor
  · intro fuel hw T s st cur h
    simp only [Combined.systime] at h
    cases h3 : Combined.systime3 fuel hw s with
    | none => rw [h3] at h; simp at h
    | some r =>
      obtain ⟨st', t3, mv⟩ := r
      rw [h3] at h
      simp only [Option.some_bind, Option.some.injEq] at h
      injection h with h1 h2
      subst h1
      subst h2
      obtain ⟨hsec, _⟩ := Combined.systime3_shape h3
      refine ⟨?_, hsec, ?_⟩
      · simp only [Combined.systime_set, Combined.systime, h3,
          Option.some_bind]
        rfl
      · rw [hsec]
        exact offset_mode_eq st'.sec st'.sec_offset T
  · intro fuel hw T s st cur hwf hT hsec
    have hret := Split.systime_sec_ret fuel hsec
    obtain ⟨hstwf, _⟩ := Split.systime_sec_wf fuel hwf hsec
    have hcU : st.curr_sec < U32 := hstwf.2.2.2.2.2.2.2.2.1
    exact ⟨Split.systime_sec_set_eq hwf hT hsec,
      (direct_mode_eq hcU hT).symm⟩

/-- C6 (witness): offset mode at target 42 from the caught-up fused state
(reported seconds 0, so the offset moves by 42 and the reported value
becomes 42), and direct mode at target 9 from the split state. -/
theorem spec_c6_witness :
    (Combined.systime_set 5 0 42 exCombined
        = some { exCombined with
            sec_offset := add32 exCombined.sec_offset (sub32 42 0) } ∧
      (0 : ℕ) = add32 exCombined.sec exCombined.sec_offset ∧
      add32 exCombined.sec (add32 exCombined.sec_offset (sub32 42 0))
        = 42 % U32) ∧
    (Split.systime_sec_set 10 2500 9 exSt
        = some { ({ exSt with lastsystime_ticks := 2000, curr_ms := 2 } :
            Split.State) with curr_sec := 9 } ∧
      (9 : ℕ) = add32 0 (sub32 9 0)) := by
  have h1 : Combined.systime 5 0 exCombined = some (exCombined, 0) := by
    decide
  have h2 : Split.systime_sec 10 2500 exSt
      = some (({ exSt with lastsystime_ticks := 2000, curr_ms := 2 } :
          Split.State), 0) := by decide
  exact ⟨spec_c6_theorem.1 5 0 42 exCombined exCombined 0 h1,
    spec_c6_theorem.2 10 2500 9 exSt _ 0 (by decide) (by decide) h2⟩

/-- C7 (counterexample): termination fails for a legal configuration.
With `ticks_per_ms = 2^31 ≥ 1` the precomputed chunk
`50 * ticks_per_ms mod 2^32` is 0, the 50 ms loop subtracts nothing from a
positive residual, and `systime_ms` never returns — no fuel produces a
result. -/
theorem spec_c7_counterexample :
    ¬ ∃ fuel r, Split.systime_ms fuel 1 exSt7 = some r := by
  rintro ⟨fuel, r, h⟩
  simp only [Split.systime_ms] at h
  have e1 : (Split.systime_tick 1 exSt7).1.ticks50ms = 0 := by decide
  have e2 : (Split.systime_tick 1 exSt7).2 = 1 := by decide
  have e3 : (Split.systime_tick 1 exSt7).1.lastsystime_ticks = 0 := by
    decide
  rw [e1, e2, e3] at h
  rw [catchup_zero_chunk (by decide) (by decide)] at h
  simp at h

/-- C7 (amended): every catch-up loop terminates provided every chunk
constant in use is positive, i.e. `ticks_per_ms ≥ 1` and the precomputed
products (`50 * ticks_per_ms` in `systime_ms`, `10 * ticks_per_ms` and
`100 * ticks_per_ms` in `systime3`) have not overflowed to 0 mod 2^32 —
they need not equal the true products.  Then `systime_ms` succeeds with
fuel equal to its entry residual (each loop iterates at most
`residual / chunk ≤ residual` times), and `systime_sec` and the fused
`systime3` succeed for some fuel (each of their loops likewise iterates at
most `residual / chunk` times).  Only a chunk that is exactly 0 — as with
`ticks_per_ms = 2^31` — makes a loop diverge. -/
theorem spec_c7_theorem :
    (∀ hw (s : Split.State), s.wf → 1 ≤ s.ticks1ms → 1 ≤ s.ticks50ms →
        (Split.systime_ms
            (sub32 (Split.systime_tick hw s).2
              (Split.systime_tick hw s).1.lastsystime_ticks) hw s).isSome) ∧
    (∀ hw (s : Split.State), s.wf → 1 ≤ s.ticks1ms → 1 ≤ s.ticks50ms →
        ∃ fuel, (Split.systime_sec fuel hw s).isSome) ∧
    (∀ hw (s : Combined.State), 1 ≤ s.ticks1ms → 1 ≤ s.ticks10ms →
        1 ≤ s.ticks100ms →
        ∃ fuel, (Combined.systime3 fuel hw s).isSome) :=
  ⟨fun _ _ hwf h1 h50 => Split.systime_ms_isSome hwf h1 h50 _ le_rfl,
    fun _ _ hwf h1 h50 => Split.systime_sec_isSome hwf h1 h50,
    fun _ _ h1 h10 h100 => Combined.systime3_isSome h1 h10 h100⟩

/-- C7 (witness): the termination bounds applied to the concrete
pass-through split state with residual 1500 and to the concrete fused
state; note the overflowed-but-positive chunk configuration
`ticks_for_1ms = 2^31 + 1` (stored `ticks50ms = 50`) is also covered. -/
theorem spec_c7_witness :
    (Split.systime_ms
        (sub32 (Split.systime_tick 1500 exSt).2
          (Split.systime_tick 1500 exSt).1.lastsystime_ticks)
        1500 exSt).isSome ∧
    (∃ fuel, (Split.systime_sec fuel 1500 exSt).isSome) ∧
    (∃ fuel, (Split.systime_sec fuel 3
        ({ exSt with ticks1ms := 2147483649, ticks50ms := 50 } :
          Split.State)).isSome) ∧
    (∃ fuel, (Combined.systime3 fuel 700 exCombined).isSome) :=
  ⟨spec_c7_theorem.1 1500 exSt (by decide) (by decide) (by decide),
    spec_c7_theorem.2.1 1500 exSt (by decide) (by decide) (by decide),
    spec_c7_theorem.2.1 3 _ (by decide) (by decide) (by decide),
    spec_c7_theorem.2.2 700 exCombined (by decide) (by decide) (by decide)⟩

/-- C8: `systimelast3` and `systimelast` mutate nothing: the state they
return is the input state, and two consecutive calls (no intervening
current-query) produce identical results — the same filled triple and the
same returned milliseconds. -/
theorem spec_c8_theorem :
    ∀ (np : Bool) (s : Combined.State),
      (Combined.systimelast3 np s).1 = s ∧
      Combined.systimelast3 np (Combined.systimelast3 np s).1
        = Combined.systimelast3 np s ∧
      (Combined.systimelast s).1 = s ∧
      Combined.systimelast (Combined.systimelast s).1
        = Combined.systimelast s := by
  intro np s
  exact ⟨rfl, rfl, rfl, rfl⟩

/-- C9: the elapsed/expired helpers compute the unsigned modular
difference `(now − start) mod 2^32`, so whenever the counter advanced by a
true elapsed count `e < 2^32` — even across wraparound — elapsed returns
exactly `e`, and expired holds iff `e ≥ interval`; this holds uniformly
for the tick, millisecond and second units. -/
theorem spec_c9_theorem (start e interval : ℕ) (hs : start < U32)
    (he : e < U32) (hi : interval < U32) :
    (∀ hw (s : Split.State),
        (Split.systime_tick hw s).2 = (start + e) % U32 →
        (Split.systime_tick_elapsed hw start s).2 = e ∧
        ((Split.systime_tick_expired hw start interval s).2 = true
          ↔ interval ≤ e)) ∧
    (∀ fuel hw (s s1 : Split.State) (m : ℕ),
        Split.systime_ms fuel hw s = some (s1, m) →
        m = (start + e) % U32 →
        Split.systime_ms_elapsed fuel hw start s = some (s1, e) ∧
        (Split.systime_ms_expired fuel hw start interval s
            = some (s1, true) ↔ interval ≤ e)) ∧
    (∀ fuel hw (s s1 : Split.State) (v : ℕ),
        Split.systime_sec fuel hw s = some (s1, v) →
        v = (start + e) % U32 →
        Split.systime_sec_elapsed fuel hw start s = some (s1, e) ∧
        (Split.systime_sec_expired fuel hw start interval s
            = some (s1, true) ↔ interval ≤ e)) := by
  have hwrap : sub32 ((start + e) % U32) start = e := sub32_wrap he
  have hint : interval % U32 = interval := Nat.mod_eq_of_lt hi
  refine ⟨?_, ?_, ?_⟩
  · intro hw s hval
    constructor
    · simp only [Split.systime_tick_elapsed, hval, hwrap]
    · simp only [Split.systime_tick_expired, hval, hwrap, hint,
        decide_eq_true_eq]
  · intro fuel hw s s1 m hms hval
    subst hval
    constructor
    · simp only [Split.systime_ms_elapsed, hms, Option.some_bind, hwrap]
    · simp only [Split.systime_ms_expired, hms, Option.some_bind, hwrap,
        hint, Option.some.injEq, Prod.mk.injEq, true_and,
        decide_eq_true_eq]
  · intro fuel hw s s1 v hsec hval
    subst hval
    constructor
    · simp only [Split.systime_sec_elapsed, hsec, Option.some_bind, hwrap]
    · simp only [Split.systime_sec_expired, hsec, Option.some_bind, hwrap,
        hint, Option.some.injEq, Prod.mk.injEq, true_and,
        decide_eq_true_eq]

/-- C9 (witness): a wraparound case — the counter advanced by 800 from
start 4294967000, wrapping past 2^32 to raw value 504; elapsed is exactly
800 and a 500-interval has expired. -/
theorem spec_c9_witness :
    (Split.systime_tick_elapsed 4294967800 4294967000 exSt).2 = 800 ∧
    ((Split.systime_tick_expired 4294967800 4294967000 500 exSt).2 = true
      ↔ (500 : ℕ) ≤ 800) :=
  (spec_c9_theorem 4294967000 800 500 (by decide) (by decide)
    (by decide)).1 4294967800 exSt (by decide)

/-- C10: passing NULL to `systime3` is safe and changes nothing but the
struct write: the NULL call returns exactly the non-NULL call's state and
milliseconds with the triple write suppressed, and the same for
`systimelast3`; the inline wrappers `systime_ms` / `systimelast_ms` of
`systime.h` are exactly these NULL calls projected to the milliseconds
value. -/
theorem spec_c10_theorem :
    ∀ fuel hw (s : Combined.State),
      Combined.systime3_ptr fuel true hw s
        = (Combined.systime3_ptr fuel false hw s).map
            (fun r => (r.1, none, r.2.2)) ∧
      Combined.systime_ms fuel hw s
        = (Combined.systime3 fuel hw s).map (fun r => (r.1, r.2.2)) ∧
      Combined.systimelast3 true s = (s, none, s.milisec) ∧
      Combined.systimelast_ms s = (s, s.milisec) := by
  intro fuel hw s
  refine ⟨?_, ?_, rfl, rfl⟩
  · simp only [Combined.systime3_ptr]
    cases Combined.systime3 fuel hw s <;> rfl
  · simp only [Combined.systime_ms, Combined.systime3_ptr]
    cases Combined.systime3 fuel hw s <;> rfl
